import Mathlib

/-!
Verification of the opencode-scheduler plugin core (`src/index.ts`): the cron
expression compiler, the run-specification model, the invocation builder, the
job store operations and the run supervisor's completion handlers.

Modelling conventions, applied throughout:
* JavaScript `undefined` is `Option.none`; a thrown exception is
  `Except.error` carrying the error message string.
* JavaScript numbers that the program treats as integers (cron field values,
  ports, exit codes) are modelled as `Int`; `JSON` numeric values are likewise
  modelled as integers, the claims under study never depend on fractional
  values.
* The `new URL(...)` well-formedness check of the JavaScript runtime is an
  abstract boolean predicate parameter `isValidUrl` threaded through the
  definitions that need it.
* String manipulation is performed on `String.data` character lists with
  locally defined helpers so that every definition evaluates by `decide`.
* The filesystem/JSON persistence layer is out of scope (the specification
  treats it as an opaque key-to-record store); the job store is a list of
  slug/record pairs holding decoded records, and the raw-JSON decoding
  boundary (`normalizeJob`) is modelled separately over a JSON value type.
-/

namespace Scheduler

/-- ASCII lowercase mapping; `String.prototype.toLowerCase` restricted to the
ASCII range, which is all `slugify` distinguishes (any character that is not
a lowercase ASCII letter or digit afterwards is collapsed into a hyphen). -/
def asciiLower (c : Char) : Char :=
  if c.toNat ≥ 65 ∧ c.toNat ≤ 90 then Char.ofNat (c.toNat + 32) else c

/-- Characters kept verbatim by the `[^a-z0-9]+` replacement in `slugify`. -/
def slugKeep (c : Char) : Bool :=
  ('a' ≤ c && c ≤ 'z') || ('0' ≤ c && c ≤ '9')

/-- The global replacement `replace(/[^a-z0-9]+/g, "-")`: every maximal run
of characters outside `[a-z0-9]` becomes a single hyphen. `prevHyphen`
records whether the previous emitted character was the hyphen for a run that
is still open. -/
def collapseRuns (prevHyphen : Bool) : List Char → List Char
  | [] => []
  | c :: rest =>
    if slugKeep c then c :: collapseRuns false rest
    else if prevHyphen then collapseRuns true rest
    else '-' :: collapseRuns true rest

/-- The `^-` half of the replacement `replace(/^-|-$/g, "")`: remove one
leading hyphen. -/
def stripLeadHyphen : List Char → List Char
  | [] => []
  | c :: rest => if c = '-' then rest else c :: rest

/-- The `-$` half of the replacement `replace(/^-|-$/g, "")`: remove one
trailing hyphen. -/
def stripTailHyphen (l : List Char) : List Char :=
  if l.getLast? = some '-' then l.dropLast else l

/-- The replacement `replace(/^-|-$/g, "")`: the regex matches at most one
leading and one trailing hyphen, each removed. -/
def stripEdgeHyphens (l : List Char) : List Char :=
  stripTailHyphen (stripLeadHyphen l)

/-- `slugify` from `src/index.ts`: lowercase, collapse non-alphanumeric runs
to single hyphens, strip a leading/trailing hyphen. -/
def slugify (name : String) : String :=
  ⟨stripEdgeHyphens (collapseRuns false (name.data.map asciiLower))⟩

/-- The slug computed by `schedule_job.execute`:
`args.source ? args.source + "-" + slugify(args.name) : slugify(args.name)`.
JavaScript truthiness makes an empty source string behave like an absent
one. -/
def scheduleSlug (source : Option String) (name : String) : String :=
  match source with
  | some s => if s = "" then slugify name else s ++ "-" ++ slugify name
  | none => slugify name

/-! ## JavaScript string primitives -/

/-- JavaScript whitespace test for `trim` and `\s`, restricted to the ASCII
whitespace characters that can occur in the strings under study. -/
def jsWhitespace (c : Char) : Bool :=
  c = ' ' || c = '\t' || c = '\n' || c = '\r' || c.toNat = 11 || c.toNat = 12

/-- `String.prototype.trim`. -/
def jsTrim (s : String) : String :=
  ⟨((s.data.dropWhile jsWhitespace).reverse.dropWhile jsWhitespace).reverse⟩

/-- Split a character list at every occurrence of the separator, keeping
empty segments: the behaviour of `String.prototype.split(",")`. -/
def splitOnCharAux (sep : Char) (acc : List Char) : List Char → List (List Char)
  | [] => [acc.reverse]
  | c :: rest =>
    if c = sep then acc.reverse :: splitOnCharAux sep [] rest
    else splitOnCharAux sep (c :: acc) rest

/-- `String.prototype.split(sep)` for a single-character separator. -/
def jsSplitOn (sep : Char) (s : String) : List String :=
  (splitOnCharAux sep [] s.data).map List.asString

/-- Split a character list at every maximal run of whitespace: the behaviour
of `split(/\s+/)` on a trimmed string. -/
def splitWsAux (acc : List Char) : List Char → List (List Char)
  | [] => [acc.reverse]
  | c :: rest =>
    if jsWhitespace c then acc.reverse :: splitWsAux [] rest
    else splitWsAux (c :: acc) rest

/-- `trim().split(/\s+/)`, with the empty segments produced by adjacent
separators removed (the `\s+` quantifier never produces them on a trimmed
string, except for the all-whitespace input, where JavaScript returns one
empty field and this model returns none; both fail the five-field check). -/
def jsWords (s : String) : List String :=
  ((splitWsAux [] (jsTrim s).data).filter (fun w => w ≠ [])).map List.asString

/-- Numeric value of a list of ASCII digit characters. -/
def digitsToNat (l : List Char) : Nat :=
  l.foldl (fun n c => n * 10 + (c.toNat - 48)) 0

/-- `parseInt(s, 10)`: skip leading whitespace, read an optional sign and
then a maximal run of decimal digits (trailing garbage ignored); `none` is
the `NaN` result when no digit is found. -/
def jsParseInt (s : String) : Option Int :=
  let cs := s.data.dropWhile jsWhitespace
  let signAndRest : Int × List Char :=
    match cs with
    | '-' :: rest => (-1, rest)
    | '+' :: rest => (1, rest)
    | other => (1, other)
  let digits := signAndRest.2.takeWhile Char.isDigit
  if digits = [] then none
  else some (signAndRest.1 * Int.ofNat (digitsToNat digits))

/-- Decimal rendering of a natural number (fuel-based; the fuel argument is
an upper bound on the number of digits plus one). -/
def natToCharsAux : Nat → Nat → List Char
  | 0, _ => []
  | fuel + 1, n =>
    if n < 10 then [Char.ofNat (n + 48)]
    else natToCharsAux fuel (n / 10) ++ [Char.ofNat (n % 10 + 48)]

/-- Decimal rendering of a natural number, as template-literal
interpolation produces it. -/
def natToString (n : Nat) : String :=
  ⟨natToCharsAux (n + 1) n⟩

/-- Decimal rendering of an integer, as template-literal interpolation
produces it. -/
def intToString : Int → String
  | .ofNat n => natToString n
  | .negSucc n => "-" ++ natToString (n + 1)

/-- `String.prototype.padStart(size, "0")` applied to a rendered number. -/
def padStartZero (s : String) (size : Nat) : String :=
  ⟨List.replicate (size - s.data.length) '0' ++ s.data⟩

/-! ## Cron field parsing (`parseCronField`, `parseCronNumber`) -/

/-- `uniqueSorted` from `src/index.ts`:
`Array.from(new Set(values)).sort((a, b) => a - b)` — distinct values in
ascending numeric order. -/
def uniqueSorted (values : List Int) : List Int :=
  values.dedup.insertionSort (· ≤ ·)

/-- The loop `for (let value = min; value <= max; value += step)`, with fuel
`(max - min).toNat + 1`, which is enough iterations for any step of at least
one. -/
def stepLoop (max : Int) (step : Nat) : Nat → Int → List Int
  | 0, _ => []
  | fuel + 1, v => if v ≤ max then v :: stepLoop max step fuel (v + step) else []

/-- Value list of a `*/step` cron field over `[min, max]`. -/
def stepValues (min max : Int) (step : Nat) : List Int :=
  stepLoop max step ((max - min).toNat + 1) min

/-- `parseCronNumber` from `src/index.ts`: `parseInt`, the day-of-week
`7 → 0` alias when enabled, then the range check; errors carry the raw
value. -/
def parseCronNumber (value : String) (min max : Int) (label : String)
    (allowSundaySeven : Bool) : Except String Int :=
  match jsParseInt value with
  | none => .error ("Invalid cron " ++ label ++ " value: " ++ value)
  | some parsed =>
    let normalized := if allowSundaySeven ∧ parsed = 7 then 0 else parsed
    if normalized < min ∨ normalized > max then
      .error ("Invalid cron " ++ label ++ " value: " ++ value)
    else .ok normalized

/-- Map a fallible parser over a list, failing at the first error — the
behaviour of `Array.prototype.map` with a throwing callback. -/
def mapExcept (f : α → Except String β) : List α → Except String (List β)
  | [] => .ok []
  | x :: xs => do
    let y ← f x
    let ys ← mapExcept f xs
    .ok (y :: ys)

/-- `parseCronField` from `src/index.ts`. `none` is the wildcard result for
`"*"`; otherwise a list of concrete values. Branches in source order: the
wildcard, the `*/step` form, the comma list, the bare integer, and the
failure case. -/
def parseCronField (field : String) (min max : Int) (label : String)
    (allowSundaySeven : Bool := false) : Except String (Option (List Int)) :=
  if field = "*" then .ok none
  else if field.data.take 2 = ['*', '/'] then
    match jsParseInt ⟨field.data.drop 2⟩ with
    | none => .error ("Invalid cron " ++ label ++ " step: " ++ field)
    | some step =>
      if step ≤ 0 then .error ("Invalid cron " ++ label ++ " step: " ++ field)
      else .ok (some (stepValues min max step.toNat))
  else
    let parts := jsSplitOn ',' field
    if parts.length > 1 then
      (mapExcept (fun part => parseCronNumber part min max label allowSundaySeven) parts).map
        (fun values => some (uniqueSorted values))
    else if field.data ≠ [] ∧ field.data.all Char.isDigit then
      (parseCronNumber field min max label allowSundaySeven).map (fun v => some [v])
    else .error ("Invalid cron " ++ label ++ " field: " ++ field)

/-- `splitCronExpression`: trim, split on whitespace, require exactly five
fields. -/
def splitCronExpression (cron : String) :
    Except String (String × String × String × String × String) :=
  match jsWords cron with
  | [minute, hour, dayOfMonth, month, dayOfWeek] =>
    .ok (minute, hour, dayOfMonth, month, dayOfWeek)
  | _ => .error ("Invalid cron: " ++ cron)

/-- `validateCronExpression`: run all five field parses purely for
validation, discarding the value sets. -/
def validateCronExpression (cron : String) : Except String Unit := do
  let (minute, hour, dayOfMonth, month, dayOfWeek) ← splitCronExpression cron
  let _ ← parseCronField minute 0 59 "minute"
  let _ ← parseCronField hour 0 23 "hour"
  let _ ← parseCronField dayOfMonth 1 31 "day of month"
  let _ ← parseCronField month 1 12 "month"
  let _ ← parseCronField dayOfWeek 0 7 "day of week" true
  .ok ()

/-! ## Launchd calendar expansion -/

/-- One `StartCalendarInterval` entry: the `Record<string, number>` built by
`buildLaunchdCalendars`, a key being absent exactly when the corresponding
cron field is a wildcard. -/
structure LaunchdCalendar where
  Minute : Option Int := none
  Hour : Option Int := none
  Day : Option Int := none
  Month : Option Int := none
  Weekday : Option Int := none
deriving DecidableEq, Repr

/-- `expandLaunchdEntries`: a wildcard (`null`) leaves the entries alone;
a value list replaces every entry by one copy per value with the given key
set. -/
def expandLaunchdEntries (entries : List LaunchdCalendar)
    (set : LaunchdCalendar → Int → LaunchdCalendar) :
    Option (List Int) → List LaunchdCalendar
  | none => entries
  | some values => (entries.map (fun e => values.map (set e))).flatten

/-- Setter for the `Minute` key of one entry. -/
def setMinute (e : LaunchdCalendar) (v : Int) : LaunchdCalendar := { e with Minute := some v }

/-- Setter for the `Hour` key of one entry. -/
def setHour (e : LaunchdCalendar) (v : Int) : LaunchdCalendar := { e with Hour := some v }

/-- Setter for the `Day` key of one entry. -/
def setDay (e : LaunchdCalendar) (v : Int) : LaunchdCalendar := { e with Day := some v }

/-- Setter for the `Month` key of one entry. -/
def setMonth (e : LaunchdCalendar) (v : Int) : LaunchdCalendar := { e with Month := some v }

/-- Setter for the `Weekday` key of one entry. -/
def setWeekday (e : LaunchdCalendar) (v : Int) : LaunchdCalendar := { e with Weekday := some v }

/-- `buildLaunchdCalendars`: expand the five fields in the fixed source
order Minute, Hour, Day, Month, Weekday starting from the single empty
entry. -/
def buildLaunchdCalendars (minuteValues hourValues dayValues monthValues
    weekdayValues : Option (List Int)) : List LaunchdCalendar :=
  let e0 : List LaunchdCalendar := [{}]
  let e1 := expandLaunchdEntries e0 setMinute minuteValues
  let e2 := expandLaunchdEntries e1 setHour hourValues
  let e3 := expandLaunchdEntries e2 setDay dayValues
  let e4 := expandLaunchdEntries e3 setMonth monthValues
  expandLaunchdEntries e4 setWeekday weekdayValues

/-- `cronToLaunchdCalendars`: parse the five fields; when both day-of-month
and day-of-week are constrained, emit the day-of-month family followed by
the day-of-week family (cron union semantics), otherwise the single cross
product. -/
def cronToLaunchdCalendars (cron : String) : Except String (List LaunchdCalendar) := do
  let (minute, hour, dayOfMonth, month, dayOfWeek) ← splitCronExpression cron
  let minuteValues ← parseCronField minute 0 59 "minute"
  let hourValues ← parseCronField hour 0 23 "hour"
  let dayValues ← parseCronField dayOfMonth 1 31 "day of month"
  let monthValues ← parseCronField month 1 12 "month"
  let weekdayValues ← parseCronField dayOfWeek 0 7 "day of week" true
  match dayValues, weekdayValues with
  | some ds, some ws =>
    .ok (buildLaunchdCalendars minuteValues hourValues (some ds) monthValues none ++
      buildLaunchdCalendars minuteValues hourValues none monthValues (some ws))
  | _, _ =>
    .ok (buildLaunchdCalendars minuteValues hourValues dayValues monthValues weekdayValues)

/-! ## Systemd calendar expansion -/

/-- `SYSTEMD_WEEKDAYS` from `src/index.ts`. -/
def SYSTEMD_WEEKDAYS : List String :=
  ["Sun", "Mon", "Tue", "Wed", "Thu", "Fri", "Sat"]

/-- `formatSystemdValue`: decimal rendering zero-padded to the given
width. -/
def formatSystemdValue (value : Int) (size : Nat) : String :=
  padStartZero (intToString value) size

/-- `SYSTEMD_WEEKDAYS[value] ?? "*"`: a JavaScript array index outside the
bounds yields `undefined`, so any value outside `0..6` renders as `"*"`. -/
def systemdWeekdayName (value : Int) : String :=
  if value < 0 then "*" else (SYSTEMD_WEEKDAYS.get? value.toNat).getD "*"

/-- The component quintuple interpolated into one `OnCalendar` line
`<dow> *-<month>-<dom> <hour>:<minute>:00`. -/
structure SystemdCombo where
  dow : String
  month : String
  dom : String
  hour : String
  minute : String
deriving DecidableEq, Repr

/-- Rendering of one `OnCalendar` line, exactly the template literal of
`cronToSystemdCalendars`. -/
def SystemdCombo.render (c : SystemdCombo) : String :=
  c.dow ++ " *-" ++ c.month ++ "-" ++ c.dom ++ " " ++ c.hour ++ ":" ++ c.minute ++ ":00"

/-- The nested push loops of `buildCalendars` inside
`cronToSystemdCalendars`: minute outermost, then hour, day-of-month, month,
day-of-week innermost. -/
def systemdCombos (minutes hours doms months dows : List String) : List SystemdCombo :=
  (minutes.map (fun mn =>
    (hours.map (fun hr =>
      (doms.map (fun dm =>
        (months.map (fun mo =>
          dows.map (fun dw =>
            SystemdCombo.mk dw mo dm hr mn))).flatten)).flatten)).flatten)).flatten

/-- Rendering of one numeric field value set for systemd: zero-padded
two-digit numbers, or `["*"]` for a wildcard. -/
def renderSystemdField : Option (List Int) → List String
  | some vs => vs.map (fun v => formatSystemdValue v 2)
  | none => ["*"]

/-- Rendering of the day-of-week value set for systemd: three-letter
weekday names, or `["*"]` for a wildcard. -/
def renderSystemdWeekdays : Option (List Int) → List String
  | some vs => vs.map systemdWeekdayName
  | none => ["*"]

/-- `cronToSystemdCalendars`, at the component level: parse the five fields,
render each value set (or `["*"]` for a wildcard), and apply the same
day-of-month/day-of-week union split as the launchd path. -/
def cronToSystemdCombos (cron : String) : Except String (List SystemdCombo) := do
  let (minute, hour, dayOfMonth, month, dayOfWeek) ← splitCronExpression cron
  let minuteValues ← parseCronField minute 0 59 "minute"
  let hourValues ← parseCronField hour 0 23 "hour"
  let dayValues ← parseCronField dayOfMonth 1 31 "day of month"
  let monthValues ← parseCronField month 1 12 "month"
  let weekdayValues ← parseCronField dayOfWeek 0 7 "day of week" true
  let minutes := renderSystemdField minuteValues
  let hours := renderSystemdField hourValues
  let days := renderSystemdField dayValues
  let months := renderSystemdField monthValues
  let weekdays := renderSystemdWeekdays weekdayValues
  match dayValues, weekdayValues with
  | some _, some _ =>
    .ok (systemdCombos minutes hours days months ["*"] ++
      systemdCombos minutes hours ["*"] months weekdays)
  | _, _ => .ok (systemdCombos minutes hours days months weekdays)

/-- `cronToSystemdCalendars`: the rendered `OnCalendar` strings. -/
def cronToSystemdCalendars (cron : String) : Except String (List String) :=
  (cronToSystemdCombos cron).map (fun combos => combos.map SystemdCombo.render)

/-! ## Run specification (`JobRunSpec`) -/

/-- `JobRunSpec` from `src/index.ts`. The `runFormat` field is kept as a
string (as JavaScript does at runtime) so that the enum checks of the
normalization and validation code are modelled faithfully. -/
structure JobRunSpec where
  prompt : Option String := none
  command : Option String := none
  arguments : Option String := none
  files : Option (List String) := none
  agent : Option String := none
  model : Option String := none
  variant : Option String := none
  title : Option String := none
  share : Option Bool := none
  «continue» : Option Bool := none
  session : Option String := none
  runFormat : Option String := none
  attachUrl : Option String := none
  port : Option Int := none
deriving DecidableEq, Repr

/-- Trim an optional string field to `undefined` when empty, the repeated
pattern of `normalizeRunSpec`. -/
def trimToNone : Option String → Option String
  | none => none
  | some s => let t := jsTrim s; if t = "" then none else some t

/-- `normalizeRunSpec` from `src/index.ts`: trim strings to `undefined`,
keep `files` entries that remain non-empty after trimming, keep booleans
only when exactly `true`, keep `runFormat` only when `"json"` or
`"default"`, floor the port and drop non-positive values. -/
def normalizeRunSpec (run : JobRunSpec) : JobRunSpec :=
  { prompt := trimToNone run.prompt
    command := trimToNone run.command
    arguments := trimToNone run.arguments
    files :=
      match run.files with
      | none => none
      | some fs =>
        let kept := (fs.map jsTrim).filter (fun f => f ≠ "")
        if kept = [] then none else some kept
    agent := trimToNone run.agent
    model := trimToNone run.model
    variant := trimToNone run.variant
    title := trimToNone run.title
    share := if run.share = some true then some true else none
    «continue» := if run.«continue» = some true then some true else none
    session := trimToNone run.session
    runFormat :=
      if run.runFormat = some "json" then some "json"
      else if run.runFormat = some "default" then some "default"
      else none
    attachUrl := trimToNone run.attachUrl
    port :=
      match run.port with
      | none => none
      | some p => if p ≤ 0 then none else some p }

/-- `normalizeAttachUrl` from `src/index.ts`: `undefined` and blank inputs
clear the field, any other value must satisfy the URL well-formedness check
(the `new URL` constructor, abstracted as `isValidUrl`); the error message
carries the untrimmed input. -/
def normalizeAttachUrl (isValidUrl : String → Bool) :
    Option String → Except String (Option String)
  | none => .ok none
  | some attachUrl =>
    let trimmed := jsTrim attachUrl
    if trimmed = "" then .ok none
    else if isValidUrl trimmed then .ok (some trimmed)
    else .error ("Invalid attach URL: " ++ attachUrl)

/-- `validateRunSpec` from `src/index.ts`: the prompt/command exclusive-or,
the attach URL check, the positive-port check and the `runFormat` enum
check. (The `typeof run.arguments` guard of the source cannot fail in this
typed model.) -/
def validateRunSpec (isValidUrl : String → Bool) (run : JobRunSpec) :
    Except String Unit := do
  let hasPrompt := match run.prompt with
    | some s => jsTrim s != ""
    | none => false
  let hasCommand := match run.command with
    | some s => jsTrim s != ""
    | none => false
  if !hasPrompt && !hasCommand then
    .error "Job must have either run.prompt or run.command"
  else if hasPrompt && hasCommand then
    .error "Job cannot specify both run.prompt and run.command"
  else do
    let _ ← match run.attachUrl with
      | some _ => normalizeAttachUrl isValidUrl run.attachUrl
      | none => .ok none
    let _ ← match run.port with
      | some p =>
        if p ≤ 0 then Except.error "run.port must be a positive integer"
        else Except.ok ()
      | none => Except.ok ()
    match run.runFormat with
    | some f =>
      if f ≠ "default" ∧ f ≠ "json" then
        .error "run.runFormat must be \x27default\x27 or \x27json\x27"
      else .ok ()
    | none => .ok ()

/-! ## Job records and the store -/

/-- `Job` from `src/index.ts`. The enum-like `lastRunSource`/`lastRunStatus`
fields are plain optional strings, matching what the runtime actually
guarantees for a decoded record. -/
structure Job where
  slug : String
  name : String
  schedule : String
  prompt : Option String := none
  attachUrl : Option String := none
  run : Option JobRunSpec := none
  source : Option String := none
  workdir : Option String := none
  createdAt : String
  updatedAt : Option String := none
  lastRunAt : Option String := none
  lastRunExitCode : Option Int := none
  lastRunError : Option String := none
  lastRunSource : Option String := none
  lastRunStatus : Option String := none
deriving DecidableEq, Repr

/-- `getJobRun` from `src/index.ts`: the stored run spec when present,
otherwise the legacy prompt/attachUrl fallback; a missing prompt is an
error. -/
def getJobRun (job : Job) : Except String JobRunSpec :=
  match job.run with
  | some run => .ok run
  | none =>
    let fallbackPrompt := jsTrim (job.prompt.getD "")
    if fallbackPrompt = "" then
      .error ("Job \x22" ++ job.slug ++
        "\x22 is missing a prompt. Update the job to include run.prompt or prompt.")
    else .ok { prompt := some fallbackPrompt, attachUrl := job.attachUrl }

/-- The tail of `sanitizeJob`: re-normalize the legacy `attachUrl` when
present (propagating its exception) and trim the legacy `prompt` to
`undefined` when blank. -/
def sanitizeLegacyFields (isValidUrl : String → Bool) (job1 : Job) : Except String Job :=
  match job1.attachUrl with
  | none => .ok { job1 with prompt := trimToNone job1.prompt }
  | some _ =>
    match normalizeAttachUrl isValidUrl job1.attachUrl with
    | .error e => .error e
    | .ok a => .ok { job1 with attachUrl := a, prompt := trimToNone job1.prompt }

/-- `sanitizeJob` from `src/index.ts`: normalize and strictly validate the
run spec when present, re-normalize the legacy attach URL, and trim the
legacy prompt to `undefined` when blank. -/
def sanitizeJob (isValidUrl : String → Bool) (job : Job) : Except String Job :=
  match job.run with
  | none => sanitizeLegacyFields isValidUrl job
  | some run =>
    match validateRunSpec isValidUrl (normalizeRunSpec run) with
    | .error e => .error e
    | .ok _ => sanitizeLegacyFields isValidUrl { job with run := some (normalizeRunSpec run) }

/-- The job store: one record per slug. The specification treats the
on-disk JSON layer as an opaque key-to-record store, so the store holds
decoded records directly; `loadJob` is lookup. -/
abbrev Store := List (String × Job)

/-- Lookup of a slug in the store, the `loadJob` read path. -/
def storeLookup (store : Store) (slug : String) : Option Job :=
  (List.find? (fun p => p.1 = slug) store).map Prod.snd

/-- Replace or add the record for a slug, the `saveJob` write path. -/
def storeInsert (store : Store) (slug : String) (job : Job) : Store :=
  (List.filter (fun p => p.1 ≠ slug) store) ++ [(slug, job)]

/-- Remove the record for a slug, the `deleteJobFile` path. -/
def storeErase (store : Store) (slug : String) : Store :=
  List.filter (fun p => p.1 ≠ slug) store

/-- `saveJob` from `src/index.ts`: persist the sanitized record under the
job's slug; sanitization failures propagate as the thrown exception. -/
def saveJob (isValidUrl : String → Bool) (store : Store) (job : Job) :
    Except String Store :=
  (sanitizeJob isValidUrl job).map (fun sanitized => storeInsert store job.slug sanitized)

/-- The partial update record passed to `updateJobRecord` by the run
supervisor's handlers. An outer `none` means the key is absent from the
update object; `some v` means the key is present with value `v` (possibly
`undefined`), which the object spread then writes over the job. -/
structure RunUpdates where
  lastRunAt : Option (Option String) := none
  lastRunSource : Option (Option String) := none
  lastRunStatus : Option (Option String) := none
  lastRunExitCode : Option (Option Int) := none
  lastRunError : Option (Option String) := none
deriving DecidableEq, Repr

/-- The spread `{ ...job, ...updates, updatedAt: now }`. -/
def applyRunUpdates (job : Job) (u : RunUpdates) (now : String) : Job :=
  { job with
    lastRunAt := u.lastRunAt.getD job.lastRunAt
    lastRunSource := u.lastRunSource.getD job.lastRunSource
    lastRunStatus := u.lastRunStatus.getD job.lastRunStatus
    lastRunExitCode := u.lastRunExitCode.getD job.lastRunExitCode
    lastRunError := u.lastRunError.getD job.lastRunError
    updatedAt := some now }

/-- `updateJobRecord` from `src/index.ts`: load the record, return `null`
without writing when it is missing, otherwise merge the updates, stamp
`updatedAt` and save. -/
def updateJobRecord (isValidUrl : String → Bool) (store : Store) (slug : String)
    (updates : RunUpdates) (now : String) : Except String (Option Job × Store) :=
  match storeLookup store slug with
  | none => .ok (none, store)
  | some job =>
    let updated := applyRunUpdates job updates now
    (saveJob isValidUrl store updated).map (fun s => (some updated, s))

/-! ## Invocation builder (`buildOpencodeArgs`) -/

/-- JavaScript truthiness of an optional string (`undefined` and the empty
string are falsy). -/
def optStrTruthy : Option String → Bool
  | some s => s ≠ ""
  | none => false

/-- The argument vector assembled by `buildOpencodeArgs`, in the exact push
order of the source: the `run` subcommand, `--attach`, `--port`,
`--command`, `--agent`, `--model`, `--variant`, `--format`, `--share`,
`--title`, `--continue`, `--session`, one `--file` per attachment, the `--`
terminator, and one trailing positional argument (the command arguments
string in command mode, else the prompt). -/
def opencodeArgList (run : JobRunSpec) : List String :=
  ["run"] ++
  (match run.attachUrl with
    | some u => if u = "" then [] else ["--attach", u]
    | none => []) ++
  (match run.port with
    | some p => ["--port", intToString p]
    | none => []) ++
  (match run.command with
    | some c => if c = "" then [] else ["--command", c]
    | none => []) ++
  (match run.agent with
    | some a => if a = "" then [] else ["--agent", a]
    | none => []) ++
  (match run.model with
    | some m => if m = "" then [] else ["--model", m]
    | none => []) ++
  (match run.variant with
    | some v => if v = "" then [] else ["--variant", v]
    | none => []) ++
  (match run.runFormat with
    | some f => if f = "" then [] else ["--format", f]
    | none => []) ++
  (if run.share = some true then ["--share"] else []) ++
  (match run.title with
    | some t => if t = "" then [] else ["--title", t]
    | none => []) ++
  (if run.«continue» = some true then ["--continue"] else []) ++
  (match run.session with
    | some s => if s = "" then [] else ["--session", s]
    | none => []) ++
  ((run.files.getD []).map (fun file => ["--file", file])).flatten ++
  ["--"] ++
  [if optStrTruthy run.command then run.arguments.getD "" else run.prompt.getD ""]

/-- `buildOpencodeArgs` from `src/index.ts`, argument vector only: the
effective run spec is fetched (`getJobRun`), normalized and strictly
validated, then assembled. The resolved executable name (`findOpencode`)
depends on the process environment and PATH; the specification places the
resolution of the external executable out of scope, so only the argument
vector is modelled. -/
def buildOpencodeArgs (isValidUrl : String → Bool) (job : Job) :
    Except String (List String) := do
  let run0 ← getJobRun job
  let run := normalizeRunSpec run0
  let _ ← validateRunSpec isValidUrl run
  .ok (opencodeArgList run)

/-- The argument order stated by the specification in §4.3 read literally:
`--title`/`--session` listed together with the other value flags before the
bare `--share`/`--continue` flags. Used to compare the specified order with
the assembled one. -/
def specArgOrderClaimed (run : JobRunSpec) : List String :=
  ["run"] ++
  (match run.attachUrl with
    | some u => if u = "" then [] else ["--attach", u]
    | none => []) ++
  (match run.port with
    | some p => ["--port", intToString p]
    | none => []) ++
  (match run.command with
    | some c => if c = "" then [] else ["--command", c]
    | none => []) ++
  (match run.agent with
    | some a => if a = "" then [] else ["--agent", a]
    | none => []) ++
  (match run.model with
    | some m => if m = "" then [] else ["--model", m]
    | none => []) ++
  (match run.variant with
    | some v => if v = "" then [] else ["--variant", v]
    | none => []) ++
  (match run.runFormat with
    | some f => if f = "" then [] else ["--format", f]
    | none => []) ++
  (match run.title with
    | some t => if t = "" then [] else ["--title", t]
    | none => []) ++
  (match run.session with
    | some s => if s = "" then [] else ["--session", s]
    | none => []) ++
  (if run.share = some true then ["--share"] else []) ++
  (if run.«continue» = some true then ["--continue"] else []) ++
  ((run.files.getD []).map (fun file => ["--file", file])).flatten ++
  ["--"] ++
  [if optStrTruthy run.command then run.arguments.getD "" else run.prompt.getD ""]

/-! ## Run supervisor completion handlers (`runJobNow`) -/

/-- An append or close on the job's log stream. -/
inductive LogEvent where
  | write (s : String)
  | close
deriving DecidableEq, Repr

/-- The interpolation `${exitCode ?? "unknown"}` used by the `close`
handler: the decimal exit code, or `unknown` when it is missing. -/
def exitCodeLabel : Option Int → String
  | some c => intToString c
  | none => "unknown"

/-- The completion marker written by the `close` handler:
`\n=== Run complete (<code or unknown>) <timestamp> ===\n`. -/
def closeCompletionMarker (code : Option Int) (now : String) : String :=
  "\n=== Run complete (" ++ exitCodeLabel code ++ ") " ++ now ++ " ===\n"

/-- The update record the `close` handler passes to `updateJobRecord`:
status `success` exactly for exit code 0, otherwise `failed` with an error
message naming the exit code (or `unknown` for a missing one). -/
def closeUpdates (code : Option Int) : RunUpdates :=
  { lastRunStatus := some (some (if code = some 0 then "success" else "failed"))
    lastRunExitCode := some code
    lastRunError := some
      (if code = some 0 then none
       else some ("Exit code " ++ exitCodeLabel code)) }

/-- The `close` handler registered by `runJobNow` on the spawned child:
write the completion marker, end the log stream, and update the job
record. -/
def runJobNowOnClose (isValidUrl : String → Bool) (store : Store) (slug : String)
    (code : Option Int) (now : String) :
    List LogEvent × Except String (Option Job × Store) :=
  ([.write (closeCompletionMarker code now), .close],
    updateJobRecord isValidUrl store slug (closeUpdates code) now)

/-- The update record the `error` handler passes to `updateJobRecord`. -/
def errorUpdates (message : String) : RunUpdates :=
  { lastRunStatus := some (some "failed")
    lastRunExitCode := some none
    lastRunError := some (some message) }

/-- The `error` handler registered by `runJobNow` on the spawned child. -/
def runJobNowOnError (isValidUrl : String → Bool) (store : Store) (slug : String)
    (message : String) (now : String) :
    List LogEvent × Except String (Option Job × Store) :=
  ([.write ("\n=== Run error " ++ now ++ " ===\n" ++ message ++ "\n"), .close],
    updateJobRecord isValidUrl store slug (errorUpdates message) now)

/-! ## The schedule_job operation -/

/-- A persistent or service-manager side effect performed by an
operation: a job-file write, a native unit install attempt, or a job-file
delete. -/
inductive SchedEffect where
  | save (slug : String)
  | install (slug : String)
  | deleteFile (slug : String)
deriving DecidableEq, Repr

/-- The tool arguments of `schedule_job` (the presentation-only `format`
argument is omitted; it does not influence validation, persistence or
installation). -/
structure ScheduleArgs where
  name : String
  schedule : String
  prompt : Option String := none
  command : Option String := none
  arguments : Option String := none
  files : Option String := none
  agent : Option String := none
  model : Option String := none
  variant : Option String := none
  title : Option String := none
  share : Option Bool := none
  «continue» : Option Bool := none
  session : Option String := none
  runFormat : Option String := none
  port : Option Int := none
  source : Option String := none
  workdir : Option String := none
  attachUrl : Option String := none
deriving Repr

/-- `parseRunFormatInput` from `src/index.ts`: absent or blank input clears
the field, `json`/`default` (after trimming) pass, anything else is an
error. -/
def parseRunFormatInput (value : Option String) : Except String (Option String) :=
  match value with
  | none => .ok none
  | some s =>
    if jsTrim s = "" then .ok none
    else if jsTrim s = "json" then .ok (some "json")
    else if jsTrim s = "default" then .ok (some "default")
    else .error ("Invalid runFormat: " ++ s ++ " (expected: default | json)")

/-- The `parseFiles` helper of `schedule_job.execute`: split the
comma-separated list, trim the items, drop the empty ones, and clear the
field when nothing remains. -/
def parseFilesArg : Option String → Option (List String)
  | none => none
  | some raw =>
    let items := ((jsSplitOn ',' raw).map jsTrim).filter (fun i => i ≠ "")
    if items = [] then none else some items

/-- The run spec assembled from the tool arguments by
`schedule_job.execute`, with the already-parsed `runFormat`. -/
def runSpecOfArgs (args : ScheduleArgs) (runFormat : Option String) : JobRunSpec :=
  { prompt := args.prompt
    command := args.command
    arguments := args.arguments
    files := parseFilesArg args.files
    agent := args.agent
    model := args.model
    variant := args.variant
    title := args.title
    share := args.share
    «continue» := args.«continue»
    session := args.session
    runFormat := runFormat
    attachUrl := args.attachUrl
    port := args.port }

/-- `schedule_job.execute` from `src/index.ts`. `install` is the outcome of
the native service-manager install call (an external process), `cwd` the
process working directory and `now` the creation timestamp. The returned
triple carries the tool result, the job store after the call, and the
persistent/OS side effects performed, in order. -/
def scheduleJobExecute (isValidUrl : String → Bool) (install : Except String Unit)
    (cwd now : String) (store : Store) (args : ScheduleArgs) :
    Except String Job × Store × List SchedEffect :=
  let slug := scheduleSlug args.source args.name
  if (storeLookup store slug).isSome then
    (.error ("Job \x22" ++ slug ++ "\x22 already exists. Delete it first or use a different name."),
      store, [])
  else
    match parseRunFormatInput args.runFormat with
    | .error msg => (.error msg, store, [])
    | .ok runFormat =>
      let run := runSpecOfArgs args runFormat
      match validateRunSpec isValidUrl (normalizeRunSpec run) with
      | .error msg => (.error ("Invalid run spec: " ++ msg), store, [])
      | .ok _ =>
        match normalizeAttachUrl isValidUrl args.attachUrl with
        | .error msg => (.error msg, store, [])
        | .ok attachUrl =>
          match validateCronExpression args.schedule with
          | .error msg => (.error ("Invalid cron schedule: " ++ msg), store, [])
          | .ok _ =>
            let workdir := match args.workdir with
              | some w => if w = "" then cwd else w
              | none => cwd
            let job : Job :=
              { slug := slug
                name := args.name
                schedule := args.schedule
                run := some (normalizeRunSpec run)
                prompt := args.prompt
                source := args.source
                workdir := some workdir
                attachUrl := attachUrl
                createdAt := now }
            match saveJob isValidUrl store job with
            | .error e =>
              (.error ("Failed to schedule job: " ++ e), storeErase store slug,
                [.deleteFile slug])
            | .ok s1 =>
              match install with
              | .ok _ => (.ok job, s1, [.save slug, .install slug])
              | .error e =>
                (.error ("Failed to schedule job: " ++ e), storeErase s1 slug,
                  [.save slug, .install slug, .deleteFile slug])

/-! ## The update_job save-and-reinstall tail -/

/-- Outcome of `update_job.execute` past the validation stage: a success
payload, an error result returned to the caller, or an exception that
escaped the handler. -/
inductive UpdateOutcome where
  | ok (job : Job)
  | errorReported (msg : String)
  | thrown (msg : String)
deriving DecidableEq, Repr

/-- The save-and-reinstall tail of `update_job.execute` (the final
`try`/`catch` block): save and install the updated record; on any failure,
restore the prior record, attempt a best-effort reinstall of the prior
configuration, and report the failure. `installUpdated` is the outcome of
the native install call for the updated record. -/
def updateJobFinish (isValidUrl : String → Bool) (store : Store)
    (priorJob updatedJob : Job) (installUpdated : Except String Unit) :
    UpdateOutcome × Store × List SchedEffect :=
  match saveJob isValidUrl store updatedJob with
  | .ok s1 =>
    match installUpdated with
    | .ok _ =>
      (.ok updatedJob, s1, [.save updatedJob.slug, .install updatedJob.slug])
    | .error e =>
      match saveJob isValidUrl s1 priorJob with
      | .ok s2 =>
        (.errorReported ("Failed to update job: " ++ e), s2,
          [.save updatedJob.slug, .install updatedJob.slug,
            .save priorJob.slug, .install priorJob.slug])
      | .error e2 =>
        (.thrown e2, s1, [.save updatedJob.slug, .install updatedJob.slug])
  | .error e =>
    match saveJob isValidUrl store priorJob with
    | .ok s2 =>
      (.errorReported ("Failed to update job: " ++ e), s2,
        [.save priorJob.slug, .install priorJob.slug])
    | .error e2 => (.thrown e2, store, [])

/-! ## The raw-JSON decode boundary (`normalizeJob`) -/

/-- A parsed JSON value, the input domain of `normalizeJob` (`JSON.parse`
output). Numeric values are modelled as integers; the decode logic only
copies them. -/
inductive JVal where
  | jnull
  | jbool (b : Bool)
  | jnum (n : Int)
  | jstr (s : String)
  | jarr (xs : List JVal)
  | jobj (fields : List (String × JVal))

/-- First binding of a key in a JSON object. -/
def jlookup (fields : List (String × JVal)) (key : String) : Option JVal :=
  (List.find? (fun p => p.1 = key) fields).map Prod.snd

/-- A field read with a `typeof x === "string"` guard. -/
def getStrField (fields : List (String × JVal)) (key : String) : Option String :=
  match jlookup fields key with
  | some (.jstr s) => some s
  | _ => none

/-- JavaScript `String(value)` coercion for parsed JSON values, used on the
entries of a `files` array. -/
def jvalToString : JVal → String
  | .jnull => "null"
  | .jbool b => if b then "true" else "false"
  | .jnum n => intToString n
  | .jstr s => s
  | .jarr xs => String.intercalate "," (xs.attach.map (fun x => jvalToString x.1))
  | .jobj _ => "[object Object]"
decreasing_by
  have := List.sizeOf_lt_of_mem x.2
  simp only [JVal.jarr.sizeOf_spec]
  omega

/-- `normalizeRunFormat` from `src/index.ts`: a trimmed string equal to
`json` or `default`, anything else dropped. -/
def normalizeRunFormatRaw : Option JVal → Option String
  | some (.jstr s) =>
    if jsTrim s = "json" then some "json"
    else if jsTrim s = "default" then some "default"
    else none
  | _ => none

/-- `normalizeJobRun` from `src/index.ts`: tolerant decode of the nested
`run` object; a non-object input yields `undefined`, every field is copied
only when it has the expected runtime type. -/
def normalizeJobRun : Option JVal → Option JobRunSpec
  | some (.jobj fs) => some
    { prompt := getStrField fs "prompt"
      command := getStrField fs "command"
      arguments := getStrField fs "arguments"
      files :=
        match jlookup fs "files" with
        | some (.jarr xs) => some (xs.map jvalToString)
        | _ => none
      agent := getStrField fs "agent"
      model := getStrField fs "model"
      variant := getStrField fs "variant"
      title := getStrField fs "title"
      share :=
        match jlookup fs "share" with
        | some (.jbool b) => some b
        | _ => none
      «continue» :=
        match jlookup fs "continue" with
        | some (.jbool b) => some b
        | _ => none
      session := getStrField fs "session"
      runFormat := normalizeRunFormatRaw (jlookup fs "runFormat")
      attachUrl := getStrField fs "attachUrl"
      port :=
        match jlookup fs "port" with
        | some (.jnum n) => some n
        | _ => none }
  | _ => none

/-- The job record assembled by `normalizeJob` before the strict sanitize
step, for a raw object with the given identity strings: every optional
field copied only when it has the expected runtime type, a missing
`createdAt` backfilled with `now`, and enum-like fields kept only for
their known values. -/
def decodeJob (fs : List (String × JVal)) (slug name schedule now : String) : Job :=
  { slug := slug
    name := name
    schedule := schedule
    source := getStrField fs "source"
    workdir := getStrField fs "workdir"
    createdAt := (getStrField fs "createdAt").getD now
    updatedAt := getStrField fs "updatedAt"
    lastRunAt := getStrField fs "lastRunAt"
    lastRunExitCode :=
      match jlookup fs "lastRunExitCode" with
      | some (.jnum n) => some n
      | _ => none
    lastRunError := getStrField fs "lastRunError"
    lastRunSource :=
      match jlookup fs "lastRunSource" with
      | some (.jstr s) =>
        if s = "manual" ∨ s = "scheduled" then some s else none
      | _ => none
    lastRunStatus :=
      match jlookup fs "lastRunStatus" with
      | some (.jstr s) =>
        if s = "running" ∨ s = "success" ∨ s = "failed" then some s else none
      | _ => none
    prompt := getStrField fs "prompt"
    attachUrl := getStrField fs "attachUrl"
    run := normalizeJobRun (jlookup fs "run") }

/-- `normalizeJob` from `src/index.ts`: `null` for a non-record input or
missing `slug`/`name`/`schedule` strings; otherwise the tolerantly decoded
record — missing `createdAt` backfilled with the current time, enum-like
fields kept only for their known values — passed through the strict
`sanitizeJob`, whose exception propagates. -/
def normalizeJob (isValidUrl : String → Bool) (raw : JVal) (now : String) :
    Except String (Option Job) :=
  match raw with
  | .jobj fs =>
    match getStrField fs "slug", getStrField fs "name", getStrField fs "schedule" with
    | some slug, some name, some schedule =>
      (sanitizeJob isValidUrl (decodeJob fs slug name schedule now)).map some
    | _, _, _ => .ok none
  | _ => .ok none

/-- The decode performed by `loadJob`: `normalizeJob` with every thrown
exception caught and turned into `null`. -/
def loadJobFromRaw (isValidUrl : String → Bool) (raw : JVal) (now : String) :
    Option Job :=
  match normalizeJob isValidUrl raw now with
  | .ok o => o
  | .error _ => none

/-! ## Specification-side definitions and concrete fixtures -/

/-- A value-carrying flag segment of the §4.3 argument order: emitted
exactly when the field is set (non-empty). -/
def flagWithValue (flag : String) : Option String → List String
  | some v => if v = "" then [] else [flag, v]
  | none => []

/-- The §4.3 argument order as amended: subcommand, `--attach`, `--port`,
`--command`, `--agent`, `--model`, `--variant`, `--format`, then `--share`
if true, `--title` if set, `--continue` if true, `--session` if set, one
`--file` per attachment, the `--` terminator, and the single trailing
positional argument. -/
def specArgOrderAmended (run : JobRunSpec) : List String :=
  ["run"] ++
  flagWithValue "--attach" run.attachUrl ++
  (match run.port with
    | some p => ["--port", intToString p]
    | none => []) ++
  flagWithValue "--command" run.command ++
  flagWithValue "--agent" run.agent ++
  flagWithValue "--model" run.model ++
  flagWithValue "--variant" run.variant ++
  flagWithValue "--format" run.runFormat ++
  (if run.share = some true then ["--share"] else []) ++
  flagWithValue "--title" run.title ++
  (if run.«continue» = some true then ["--continue"] else []) ++
  flagWithValue "--session" run.session ++
  ((run.files.getD []).map (fun file => ["--file", file])).flatten ++
  ["--"] ++
  [if optStrTruthy run.command then run.arguments.getD "" else run.prompt.getD ""]

/-- URL predicate accepting every string, used to instantiate the abstract
`new URL` check on concrete examples whose URLs are absent or valid. -/
def urlAny : String → Bool := fun _ => true

/-- A job in command mode (`command="echo"`, `arguments="hi"`). -/
def jobEcho : Job :=
  { slug := "echo-job", name := "Echo Job", schedule := "0 9 * * *", createdAt := "t0",
    run := some { command := some "echo", arguments := some "hi" } }

/-- A job whose run spec sets both a title and the share flag. -/
def jobShareTitle : Job :=
  { slug := "st-job", name := "ST Job", schedule := "0 9 * * *", createdAt := "t0",
    run := some { prompt := some "p", title := some "t", share := some true } }

/-- A plain prompt job used as a store fixture. -/
def jobPromptFix : Job :=
  { slug := "fix", name := "Fix", schedule := "0 9 * * *", createdAt := "t0",
    run := some { prompt := some "hello" } }

/-- A raw record whose nested `run` value is the empty object: structurally
a record, but failing the strict prompt/command validation. -/
def rawRunEmpty : JVal :=
  .jobj [("slug", .jstr "a"), ("name", .jstr "b"), ("schedule", .jstr "* * * * *"),
    ("run", .jobj [])]

/-- A corrupted raw record: valid identity fields, a legacy prompt, no
`createdAt`, an unknown `lastRunStatus` string and a non-string
`lastRunSource`. -/
def rawCorrupt : JVal :=
  .jobj [("slug", .jstr "a"), ("name", .jstr "b"), ("schedule", .jstr "* * * * *"),
    ("prompt", .jstr "hello"), ("lastRunStatus", .jstr "bogus"), ("lastRunSource", .jnum 3)]

/-- The job that `rawCorrupt` is expected to decode to: unknown fields
dropped and `createdAt` backfilled. -/
def jobCorrupt : Job :=
  { slug := "a", name := "b", schedule := "* * * * *", prompt := some "hello",
    createdAt := "NOW" }

/-- Schedule arguments carrying a non-positive port together with an
otherwise valid job. -/
def argsPortZero : ScheduleArgs :=
  { name := "x", schedule := "* * * * *", prompt := some "p", port := some 0 }

/-- Schedule arguments with a three-field cron expression. -/
def argsBadCron : ScheduleArgs :=
  { name := "y", schedule := "* * *", prompt := some "p" }

/-! ## Lemmas: `Except` plumbing and cron field parsing -/

theorem exceptBind_ok {α β : Type} {x : Except String α} {f : α → Except String β} {b : β} :
    x >>= f = .ok b ↔ ∃ a, x = .ok a ∧ f a = .ok b := by
  cases x <;> simp [Bind.bind, Except.bind]

theorem mapExcept_mem {α β : Type} {f : α → Except String β} {P : β → Prop}
    (hf : ∀ x y, f x = .ok y → P y) :
    ∀ l ys, mapExcept f l = .ok ys → ∀ y ∈ ys, P y := by
  intro l
  induction l with
  | nil =>
    intro ys h
    simp only [mapExcept] at h
    cases h
    simp
  | cons x xs ih =>
    intro ys h
    simp only [mapExcept] at h
    rcases exceptBind_ok.mp h with ⟨y, hy, h2⟩
    rcases exceptBind_ok.mp h2 with ⟨ys2, hys2, h3⟩
    cases h3
    intro z hz
    rcases List.mem_cons.mp hz with rfl | hz
    · exact hf x z hy
    · exact ih ys2 hys2 z hz

theorem parseCronNumber_bounds {value label : String} {min max : Int} {b : Bool} {v : Int}
    (h : parseCronNumber value min max label b = .ok v) : min ≤ v ∧ v ≤ max := by
  unfold parseCronNumber at h
  cases hp : jsParseInt value with
  | none => rw [hp] at h; cases h
  | some parsed =>
    rw [hp] at h
    dsimp only at h
    by_cases hc : (if b = true ∧ parsed = 7 then 0 else parsed) < min ∨
        (if b = true ∧ parsed = 7 then 0 else parsed) > max
    · rw [if_pos hc] at h
      cases h
    · rw [if_neg hc] at h
      have hv : (if b = true ∧ parsed = 7 then 0 else parsed) = v := by
        simpa using h
      push_neg at hc
      omega

theorem stepLoop_mem {max : Int} {step : Nat} :
    ∀ fuel (v w : Int), w ∈ stepLoop max step fuel v → v ≤ w ∧ w ≤ max := by
  intro fuel
  induction fuel with
  | zero =>
    intro v w h
    simp [stepLoop] at h
  | succ n ih =>
    intro v w h
    rw [stepLoop] at h
    by_cases hv : v ≤ max
    · rw [if_pos hv] at h
      rcases List.mem_cons.mp h with rfl | h
      · exact ⟨le_refl w, hv⟩
      · have := ih _ _ h
        omega
    · rw [if_neg hv] at h
      simp at h

theorem stepLoop_sorted {max : Int} {step : Nat} (hstep : 1 ≤ step) :
    ∀ fuel (v : Int), (stepLoop max step fuel v).Sorted (· < ·) := by
  intro fuel
  induction fuel with
  | zero =>
    intro v
    simp [stepLoop]
  | succ n ih =>
    intro v
    rw [stepLoop]
    by_cases hv : v ≤ max
    · rw [if_pos hv, List.sorted_cons]
      refine ⟨?_, ih _⟩
      intro b hb
      have := stepLoop_mem _ _ _ hb
      omega
    · rw [if_neg hv]
      simp

theorem uniqueSorted_sorted (values : List Int) : (uniqueSorted values).Sorted (· < ·) := by
  have hs : (uniqueSorted values).Sorted (· ≤ ·) := List.sorted_insertionSort _ _
  have hn : (uniqueSorted values).Nodup :=
    ((List.perm_insertionSort _ _).nodup_iff).mpr (List.nodup_dedup values)
  exact hs.lt_of_le hn

theorem uniqueSorted_mem {v : Int} {values : List Int} :
    v ∈ uniqueSorted values ↔ v ∈ values := by
  unfold uniqueSorted
  rw [(List.perm_insertionSort _ _).mem_iff, List.mem_dedup]

theorem parseCronField_ok_some {field label : String} {min max : Int} {b : Bool}
    {vs : List Int} (h : parseCronField field min max label b = .ok (some vs)) :
    vs.Sorted (· < ·) ∧ ∀ v ∈ vs, min ≤ v ∧ v ≤ max := by
  unfold parseCronField at h
  by_cases h1 : field = "*"
  · rw [if_pos h1] at h
    simp at h
  · rw [if_neg h1] at h
    by_cases h2 : field.data.take 2 = ['*', '/']
    · rw [if_pos h2] at h
      cases hp : jsParseInt ⟨field.data.drop 2⟩ with
      | none => rw [hp] at h; cases h
      | some st =>
        rw [hp] at h
        dsimp only at h
        by_cases h3 : st ≤ 0
        · rw [if_pos h3] at h
          cases h
        · rw [if_neg h3] at h
          have hst : 1 ≤ st.toNat := by omega
          have hvs : stepValues min max st.toNat = vs := by
            simpa using h
          subst hvs
          refine ⟨stepLoop_sorted hst _ _, ?_⟩
          intro v hv
          exact stepLoop_mem _ _ _ hv
    · rw [if_neg h2] at h
      dsimp only at h
      by_cases h4 : (jsSplitOn ',' field).length > 1
      · rw [if_pos h4] at h
        cases hm : mapExcept
          (fun part => parseCronNumber part min max label b) (jsSplitOn ',' field) with
        | error e =>
          rw [hm] at h
          simp [Except.map] at h
        | ok values =>
          rw [hm] at h
          have hvs : uniqueSorted values = vs := by
            simpa [Except.map] using h
          subst hvs
          refine ⟨uniqueSorted_sorted _, ?_⟩
          intro v hv
          exact mapExcept_mem (fun x y hy => parseCronNumber_bounds hy) _ _ hm v
            (uniqueSorted_mem.mp hv)
      · rw [if_neg h4] at h
        by_cases h5 : field.data ≠ [] ∧ field.data.all Char.isDigit = true
        · rw [if_pos h5] at h
          cases hp : parseCronNumber field min max label b with
          | error e =>
            rw [hp] at h
            simp [Except.map] at h
          | ok v0 =>
            rw [hp] at h
            have hvs : [v0] = vs := by
              simpa [Except.map] using h
            subst hvs
            refine ⟨by simp, ?_⟩
            intro v hv
            rw [List.mem_singleton] at hv
            subst hv
            exact parseCronNumber_bounds hp
        · rw [if_neg h5] at h
          cases h

/-! ## Lemmas: calendar expansion structure -/

theorem except_ok_bind {α β : Type} (a : α) (f : α → Except String β) :
    (Except.ok a >>= f : Except String β) = f a := rfl

theorem mem_expand_some {entries : List LaunchdCalendar}
    {set : LaunchdCalendar → Int → LaunchdCalendar} {values : List Int}
    {P Q : LaunchdCalendar → Prop}
    (h : ∀ e ∈ entries, Q e) (himp : ∀ e v, Q e → P (set e v)) :
    ∀ e ∈ expandLaunchdEntries entries set (some values), P e := by
  intro e he
  simp only [expandLaunchdEntries, List.mem_flatten, List.mem_map] at he
  obtain ⟨l, ⟨e0, he0, rfl⟩, hel⟩ := he
  obtain ⟨v, hv, rfl⟩ := List.mem_map.mp hel
  exact himp e0 v (h e0 he0)

theorem mem_expand_pres {entries : List LaunchdCalendar}
    {set : LaunchdCalendar → Int → LaunchdCalendar} {vs : Option (List Int)}
    {P : LaunchdCalendar → Prop}
    (hset : ∀ e v, P e → P (set e v)) (h : ∀ e ∈ entries, P e) :
    ∀ e ∈ expandLaunchdEntries entries set vs, P e := by
  cases vs with
  | none => exact h
  | some values => exact mem_expand_some h (fun e v hq => hset e v hq)

theorem build_day_family (mv hvv mov : Option (List Int)) (ds : List Int) :
    ∀ e ∈ buildLaunchdCalendars mv hvv (some ds) mov none,
      e.Day.isSome = true ∧ e.Weekday = none := by
  have hW0 : ∀ x ∈ [({} : LaunchdCalendar)], x.Weekday = none := by
    intro x hx
    rw [List.mem_singleton] at hx
    subst hx
    rfl
  have hW1 : ∀ x ∈ expandLaunchdEntries [({} : LaunchdCalendar)] setMinute mv,
      x.Weekday = none :=
    mem_expand_pres (fun a v ha => ha) hW0
  have hW2 : ∀ x ∈ expandLaunchdEntries
      (expandLaunchdEntries [({} : LaunchdCalendar)] setMinute mv) setHour hvv,
      x.Weekday = none :=
    mem_expand_pres (fun a v ha => ha) hW1
  have hDW3 : ∀ x ∈ expandLaunchdEntries (expandLaunchdEntries
      (expandLaunchdEntries [({} : LaunchdCalendar)] setMinute mv) setHour hvv)
      setDay (some ds), x.Day.isSome = true ∧ x.Weekday = none :=
    mem_expand_some hW2 (fun a v ha => ⟨rfl, ha⟩)
  have hDW4 : ∀ x ∈ expandLaunchdEntries (expandLaunchdEntries (expandLaunchdEntries
      (expandLaunchdEntries [({} : LaunchdCalendar)] setMinute mv) setHour hvv)
      setDay (some ds)) setMonth mov, x.Day.isSome = true ∧ x.Weekday = none :=
    mem_expand_pres (fun a v ha => ha) hDW3
  intro e he
  exact hDW4 e he

theorem build_weekday_family (mv hvv mov : Option (List Int)) (ws : List Int) :
    ∀ e ∈ buildLaunchdCalendars mv hvv none mov (some ws),
      e.Weekday.isSome = true ∧ e.Day = none := by
  have hD0 : ∀ x ∈ [({} : LaunchdCalendar)], x.Day = none := by
    intro x hx
    rw [List.mem_singleton] at hx
    subst hx
    rfl
  have hD1 : ∀ x ∈ expandLaunchdEntries [({} : LaunchdCalendar)] setMinute mv,
      x.Day = none :=
    mem_expand_pres (fun a v ha => ha) hD0
  have hD2 : ∀ x ∈ expandLaunchdEntries
      (expandLaunchdEntries [({} : LaunchdCalendar)] setMinute mv) setHour hvv,
      x.Day = none :=
    mem_expand_pres (fun a v ha => ha) hD1
  have hD4 : ∀ x ∈ expandLaunchdEntries (expandLaunchdEntries (expandLaunchdEntries
      [({} : LaunchdCalendar)] setMinute mv) setHour hvv) setMonth mov,
      x.Day = none :=
    mem_expand_pres (fun a v ha => ha) hD2
  have hWD5 : ∀ x ∈ expandLaunchdEntries (expandLaunchdEntries (expandLaunchdEntries
      (expandLaunchdEntries [({} : LaunchdCalendar)] setMinute mv) setHour hvv)
      setMonth mov) setWeekday (some ws), x.Weekday.isSome = true ∧ x.Day = none :=
    mem_expand_some hD4 (fun a v ha => ⟨rfl, ha⟩)
  intro e he
  exact hWD5 e he

theorem cronToLaunchdCalendars_both {cron mn hr dom mon dow : String}
    {mv hvv mov : Option (List Int)} {ds ws : List Int}
    (h0 : splitCronExpression cron = .ok (mn, hr, dom, mon, dow))
    (h1 : parseCronField mn 0 59 "minute" = .ok mv)
    (h2 : parseCronField hr 0 23 "hour" = .ok hvv)
    (h3 : parseCronField dom 1 31 "day of month" = .ok (some ds))
    (h4 : parseCronField mon 1 12 "month" = .ok mov)
    (h5 : parseCronField dow 0 7 "day of week" true = .ok (some ws)) :
    cronToLaunchdCalendars cron = .ok
      (buildLaunchdCalendars mv hvv (some ds) mov none ++
        buildLaunchdCalendars mv hvv none mov (some ws)) := by
  unfold cronToLaunchdCalendars
  rw [h0, except_ok_bind]
  dsimp only
  rw [h1, except_ok_bind, h2, except_ok_bind, h3, except_ok_bind, h4, except_ok_bind,
    h5, except_ok_bind]

theorem cronToSystemdCombos_both {cron mn hr dom mon dow : String}
    {mv hvv mov : Option (List Int)} {ds ws : List Int}
    (h0 : splitCronExpression cron = .ok (mn, hr, dom, mon, dow))
    (h1 : parseCronField mn 0 59 "minute" = .ok mv)
    (h2 : parseCronField hr 0 23 "hour" = .ok hvv)
    (h3 : parseCronField dom 1 31 "day of month" = .ok (some ds))
    (h4 : parseCronField mon 1 12 "month" = .ok mov)
    (h5 : parseCronField dow 0 7 "day of week" true = .ok (some ws)) :
    cronToSystemdCombos cron = .ok
      (systemdCombos (renderSystemdField mv) (renderSystemdField hvv)
        (ds.map (fun v => formatSystemdValue v 2)) (renderSystemdField mov) ["*"] ++
       systemdCombos (renderSystemdField mv) (renderSystemdField hvv)
        ["*"] (renderSystemdField mov) (ws.map systemdWeekdayName)) := by
  unfold cronToSystemdCombos
  rw [h0, except_ok_bind]
  dsimp only
  rw [h1, except_ok_bind, h2, except_ok_bind, h3, except_ok_bind, h4, except_ok_bind,
    h5, except_ok_bind]
  rfl

theorem mem_flatten_map {α β : Type} {l : List α} {f : α → List β} {b : β} :
    b ∈ (l.map f).flatten ↔ ∃ a ∈ l, b ∈ f a := by
  simp

theorem mem_systemdCombos {c : SystemdCombo} {minutes hours doms months dows : List String}
    (h : c ∈ systemdCombos minutes hours doms months dows) :
    c.dow ∈ dows ∧ c.dom ∈ doms := by
  unfold systemdCombos at h
  obtain ⟨mn, hmn, h⟩ := mem_flatten_map.mp h
  obtain ⟨hrv, hhr, h⟩ := mem_flatten_map.mp h
  obtain ⟨dm, hdm, h⟩ := mem_flatten_map.mp h
  obtain ⟨mo, hmo, h⟩ := mem_flatten_map.mp h
  obtain ⟨dw, hdw, rfl⟩ := List.mem_map.mp h
  exact ⟨hdw, hdm⟩

theorem formatSystemdValue_ne_star (v : Int) : formatSystemdValue v 2 ≠ "*" := by
  intro h
  have hl := congrArg (fun s => s.data.length) h
  have hstar : ("*" : String).data.length = 1 := rfl
  simp only [formatSystemdValue, padStartZero, List.length_append,
    List.length_replicate, hstar] at hl
  omega

theorem systemdWeekdayName_ne_star {v : Int} (h0 : 0 ≤ v) (h6 : v ≤ 6) :
    systemdWeekdayName v ≠ "*" := by
  interval_cases v <;> decide

/-! ## C1, C5, C7: the cron compiler claims -/

/-- C1 (amended): for every valid cron expression constraining both
day-of-month and day-of-week, `cronToLaunchdCalendars` is exactly a family
of entries constraining `Day` and not `Weekday` followed by a family
constraining `Weekday` and not `Day`, and `cronToSystemdCombos` is exactly
a family of lines with day-of-month fixed and weekday `*` followed by a
family with day-of-month `*` and weekday fixed — the latter provided every
parsed day-of-week value is at most 6 (the unnormalized value 7 produced by
step expansion renders as `*`). Compiling `"0 9 1 * 1"` yields exactly two
calendar entries on each target. -/
theorem cron_union_split {cron mn hr dom mon dow : String}
    {mv hvv mov : Option (List Int)} {ds ws : List Int}
    (h0 : splitCronExpression cron = .ok (mn, hr, dom, mon, dow))
    (h1 : parseCronField mn 0 59 "minute" = .ok mv)
    (h2 : parseCronField hr 0 23 "hour" = .ok hvv)
    (h3 : parseCronField dom 1 31 "day of month" = .ok (some ds))
    (h4 : parseCronField mon 1 12 "month" = .ok mov)
    (h5 : parseCronField dow 0 7 "day of week" true = .ok (some ws))
    (h7 : ∀ v ∈ ws, v ≤ 6) :
    (∃ a b, cronToLaunchdCalendars cron = .ok (a ++ b) ∧
      (∀ e ∈ a, e.Day.isSome = true ∧ e.Weekday = none) ∧
      (∀ e ∈ b, e.Weekday.isSome = true ∧ e.Day = none)) ∧
    (∃ a2 b2, cronToSystemdCombos cron = .ok (a2 ++ b2) ∧
      (∀ c ∈ a2, c.dom ≠ "*" ∧ c.dow = "*") ∧
      (∀ c ∈ b2, c.dow ≠ "*" ∧ c.dom = "*")) ∧
    cronToLaunchdCalendars "0 9 1 * 1" = .ok
      [{ Minute := some 0, Hour := some 9, Day := some 1 },
       { Minute := some 0, Hour := some 9, Weekday := some 1 }] ∧
    cronToSystemdCalendars "0 9 1 * 1" =
      .ok ["* *-*-01 09:00:00", "Mon *-*-* 09:00:00"] := by
  refine ⟨⟨_, _, cronToLaunchdCalendars_both h0 h1 h2 h3 h4 h5,
      build_day_family mv hvv mov ds, build_weekday_family mv hvv mov ws⟩,
    ⟨_, _, cronToSystemdCombos_both h0 h1 h2 h3 h4 h5, ?_, ?_⟩, rfl, rfl⟩
  · intro c hc
    obtain ⟨hdw, hdm⟩ := mem_systemdCombos hc
    rw [List.mem_singleton] at hdw
    obtain ⟨v, hv, heq⟩ := List.mem_map.mp hdm
    refine ⟨?_, hdw⟩
    rw [← heq]
    exact formatSystemdValue_ne_star v
  · intro c hc
    obtain ⟨hdw, hdm⟩ := mem_systemdCombos hc
    rw [List.mem_singleton] at hdm
    obtain ⟨v, hv, heq⟩ := List.mem_map.mp hdw
    have hb := (parseCronField_ok_some h5).2 v hv
    refine ⟨?_, hdm⟩
    rw [← heq]
    exact systemdWeekdayName_ne_star hb.1 (h7 v hv)

/-- C1 counterexample: on `"0 9 1 * */7"` (day-of-month and day-of-week
both constrained, with the day-of-week step expansion reaching 7) the
systemd output contains the line `* *-*-* 09:00:00`, which fixes neither
day-of-month nor weekday, so the output is not a concatenation of a
day-of-month family and a weekday-fixing family as the claim states. -/
theorem cron_union_split_counterexample :
    cronToSystemdCombos "0 9 1 * */7" = .ok
      [⟨"*", "*", "01", "09", "00"⟩, ⟨"Sun", "*", "*", "09", "00"⟩,
        ⟨"*", "*", "*", "09", "00"⟩] ∧
    ¬ (∃ a b, ([⟨"*", "*", "01", "09", "00"⟩, ⟨"Sun", "*", "*", "09", "00"⟩,
        ⟨"*", "*", "*", "09", "00"⟩] : List SystemdCombo) = a ++ b ∧
      (∀ c ∈ a, c.dom ≠ "*" ∧ c.dow = "*") ∧
      (∀ c ∈ b, c.dow ≠ "*" ∧ c.dom = "*")) := by
  refine ⟨rfl, ?_⟩
  rintro ⟨a, b, heq, ha, hb⟩
  have hmem : (⟨"*", "*", "*", "09", "00"⟩ : SystemdCombo) ∈ a ++ b := by
    rw [← heq]
    simp
  rcases List.mem_append.mp hmem with hx | hx
  · exact (ha _ hx).1 rfl
  · exact (hb _ hx).1 rfl

/-- C1 witness: the union split instantiated at `"0 9 1 * 1"`. -/
theorem cron_union_split_witness :
    cronToLaunchdCalendars "0 9 1 * 1" = .ok
      [{ Minute := some 0, Hour := some 9, Day := some 1 },
       { Minute := some 0, Hour := some 9, Weekday := some 1 }] ∧
    cronToSystemdCalendars "0 9 1 * 1" =
      .ok ["* *-*-01 09:00:00", "Mon *-*-* 09:00:00"] := by
  have h := @cron_union_split "0 9 1 * 1" "0" "9" "1" "*" "1"
    (some [0]) (some [9]) none [1] [1] rfl rfl rfl rfl rfl rfl
    (by decide : ∀ v ∈ ([1] : List Int), v ≤ 6)
  exact ⟨h.2.2.1, h.2.2.2⟩

/-- C5 (amended): `parseCronField` returns the wildcard marker exactly for
`"*"`; `*/step` with a positive parsed step expands to the arithmetic
sequence over `[min, max]`; comma lists are parsed element-wise with
`parseInt` semantics, deduplicated and sorted ascending; a bare in-range
integer yields a singleton; out-of-range values and non-positive steps
raise errors naming the field. Every successful parse is strictly sorted
and within `[min, max]`. -/
theorem parseCronField_contract {field label : String} {min max : Int} {b : Bool}
    {vs : List Int} (h : parseCronField field min max label b = .ok (some vs)) :
    (vs.Sorted (· < ·) ∧ ∀ v ∈ vs, min ≤ v ∧ v ≤ max) ∧
    parseCronField "*" 0 59 "minute" = .ok none ∧
    parseCronField "*/15" 0 59 "minute" = .ok (some [0, 15, 30, 45]) ∧
    parseCronField "*/7" 0 23 "hour" = .ok (some [0, 7, 14, 21]) ∧
    parseCronField "5,1,5,3" 0 59 "minute" = .ok (some [1, 3, 5]) ∧
    parseCronField "5" 0 59 "minute" = .ok (some [5]) ∧
    parseCronField "70" 0 59 "minute" = .error "Invalid cron minute value: 70" ∧
    parseCronField "*/0" 0 59 "minute" = .error "Invalid cron minute step: */0" :=
  ⟨parseCronField_ok_some h, rfl, rfl, rfl, rfl, rfl, rfl, rfl⟩

/-- C5 counterexample: the comma-list field `"1,2x"` is not a list of bare
integers, yet it parses without error to `[1, 2]` because each element goes
through `parseInt`, which ignores trailing garbage — while the same
malformed element standing alone is rejected. The claim that any other
shape raises an error is therefore false. -/
theorem parseCronField_contract_counterexample :
    parseCronField "1,2x" 0 59 "minute" = .ok (some [1, 2]) ∧
    parseCronField "2x" 0 59 "minute" = .error "Invalid cron minute field: 2x" :=
  ⟨rfl, rfl⟩

/-- C5 witness: the contract instantiated at `"*/15"` over minutes. -/
theorem parseCronField_contract_witness :
    parseCronField "*/15" 0 59 "minute" = .ok (some [0, 15, 30, 45]) ∧
    ([0, 15, 30, 45] : List Int).Sorted (· < ·) ∧
    (∀ v ∈ ([0, 15, 30, 45] : List Int), (0 : Int) ≤ v ∧ v ≤ 59) := by
  have h : parseCronField "*/15" 0 59 "minute" false = .ok (some [0, 15, 30, 45]) := rfl
  have hc := parseCronField_contract h
  exact ⟨h, hc.1.1, hc.1.2⟩

/-- C7: the day-of-week alias `7 → 0` is applied on the bare-integer and
comma-list paths but not on the `*/step` expansion path: `"*/7"` over
`0..7` parses to `[0, 7]`, `cronToLaunchdCalendars` emits `Weekday 7`
untranslated, and `cronToSystemdCalendars` renders the out-of-table value 7
as `*` (every day) instead of `Sun`. Evaluated at the failing input
`"0 0 * * */7"`. -/
theorem weekday_seven_alias_bug :
    parseCronField "7" 0 7 "day of week" true = .ok (some [0]) ∧
    parseCronField "1,7" 0 7 "day of week" true = .ok (some [0, 1]) ∧
    parseCronField "*/7" 0 7 "day of week" true = .ok (some [0, 7]) ∧
    cronToLaunchdCalendars "0 0 * * */7" = .ok
      [{ Minute := some 0, Hour := some 0, Weekday := some 0 },
       { Minute := some 0, Hour := some 0, Weekday := some 7 }] ∧
    cronToSystemdCalendars "0 0 * * */7" =
      .ok ["Sun *-*-* 00:00:00", "* *-*-* 00:00:00"] ∧
    systemdWeekdayName 7 = "*" ∧
    systemdWeekdayName 0 = "Sun" :=
  ⟨rfl, rfl, rfl, rfl, rfl, rfl, rfl⟩

/-! ## Lemmas: slug shape -/

theorem collapseRuns_chars : ∀ (l : List Char) (p : Bool) (c : Char),
    c ∈ collapseRuns p l → slugKeep c = true ∨ c = '-' := by
  intro l
  induction l with
  | nil =>
    intro p c hc
    simp [collapseRuns] at hc
  | cons x xs ih =>
    intro p c hc
    rw [collapseRuns] at hc
    by_cases hx : slugKeep x = true
    · rw [if_pos hx] at hc
      rcases List.mem_cons.mp hc with rfl | hc
      · exact Or.inl hx
      · exact ih false c hc
    · rw [if_neg hx] at hc
      by_cases hp : p = true
      · rw [if_pos hp] at hc
        exact ih true c hc
      · rw [if_neg hp] at hc
        rcases List.mem_cons.mp hc with rfl | hc
        · exact Or.inr rfl
        · exact ih true c hc

theorem collapseRuns_sep : ∀ (l : List Char) (p : Bool),
    List.Chain' (fun a b => ¬(a = '-' ∧ b = '-')) (collapseRuns p l) ∧
    (p = true → (collapseRuns p l).head? ≠ some '-') := by
  intro l
  induction l with
  | nil =>
    intro p
    refine ⟨by simp [collapseRuns], ?_⟩
    intro _
    simp [collapseRuns]
  | cons x xs ih =>
    intro p
    by_cases hx : slugKeep x = true
    · have hg : collapseRuns p (x :: xs) = x :: collapseRuns false xs := by
        rw [collapseRuns, if_pos hx]
      rw [hg]
      constructor
      · rw [List.chain'_cons']
        refine ⟨?_, (ih false).1⟩
        rintro y _ ⟨rfl, _⟩
        exact absurd hx (by decide)
      · intro _ hcontra
        rw [List.head?_cons, Option.some.injEq] at hcontra
        subst hcontra
        exact absurd hx (by decide)
    · by_cases hp : p = true
      · have hg : collapseRuns p (x :: xs) = collapseRuns true xs := by
          rw [collapseRuns, if_neg hx, if_pos hp]
        rw [hg]
        exact ⟨(ih true).1, fun _ => (ih true).2 rfl⟩
      · have hg : collapseRuns p (x :: xs) = '-' :: collapseRuns true xs := by
          rw [collapseRuns, if_neg hx, if_neg hp]
        rw [hg]
        constructor
        · rw [List.chain'_cons']
          refine ⟨?_, (ih true).1⟩
          rintro y hy ⟨_, rfl⟩
          exact (ih true).2 rfl (Option.mem_def.mp hy)
        · intro hp'
          exact absurd hp' hp

theorem stripLeadHyphen_subset (l : List Char) : ∀ c ∈ stripLeadHyphen l, c ∈ l := by
  cases l with
  | nil => intro c hc; exact hc
  | cons x xs =>
    intro c hc
    rw [stripLeadHyphen] at hc
    by_cases hx : x = '-'
    · rw [if_pos hx] at hc
      exact List.mem_cons_of_mem x hc
    · rw [if_neg hx] at hc
      exact hc

theorem stripLeadHyphen_chain {l : List Char}
    (h : List.Chain' (fun a b => ¬(a = '-' ∧ b = '-')) l) :
    List.Chain' (fun a b => ¬(a = '-' ∧ b = '-')) (stripLeadHyphen l) := by
  cases l with
  | nil => exact h
  | cons x xs =>
    rw [stripLeadHyphen]
    by_cases hx : x = '-'
    · rw [if_pos hx]
      exact (List.chain'_cons'.mp h).2
    · rw [if_neg hx]
      exact h

theorem stripLeadHyphen_head {l : List Char}
    (h : List.Chain' (fun a b => ¬(a = '-' ∧ b = '-')) l) :
    (stripLeadHyphen l).head? ≠ some '-' := by
  cases l with
  | nil => simp [stripLeadHyphen]
  | cons x xs =>
    rw [stripLeadHyphen]
    by_cases hx : x = '-'
    · rw [if_pos hx]
      intro hcontra
      subst hx
      exact (List.chain'_cons'.mp h).1 '-' (Option.mem_def.mpr hcontra) ⟨rfl, rfl⟩
    · rw [if_neg hx]
      rw [List.head?_cons]
      intro hcontra
      exact hx (Option.some.inj hcontra)

theorem stripTailHyphen_subset (l : List Char) : ∀ c ∈ stripTailHyphen l, c ∈ l := by
  intro c hc
  rw [stripTailHyphen] at hc
  by_cases hl : l.getLast? = some '-'
  · rw [if_pos hl] at hc
    exact List.dropLast_subset l hc
  · rw [if_neg hl] at hc
    exact hc

theorem stripTailHyphen_chain {l : List Char}
    (h : List.Chain' (fun a b => ¬(a = '-' ∧ b = '-')) l) :
    List.Chain' (fun a b => ¬(a = '-' ∧ b = '-')) (stripTailHyphen l) := by
  rw [stripTailHyphen]
  by_cases hl : l.getLast? = some '-'
  · rw [if_pos hl]
    rcases l.eq_nil_or_concat with rfl | ⟨L, b, rfl⟩
    · simp
    · rw [List.concat_eq_append] at h ⊢
      rw [List.dropLast_concat]
      exact (List.chain'_append.mp h).1
  · rw [if_neg hl]
    exact h

theorem stripTailHyphen_head {l : List Char} (hh : l.head? ≠ some '-') :
    (stripTailHyphen l).head? ≠ some '-' := by
  rw [stripTailHyphen]
  by_cases hl : l.getLast? = some '-'
  · rw [if_pos hl]
    rcases l.eq_nil_or_concat with rfl | ⟨L, b, rfl⟩
    · simp
    · rw [List.concat_eq_append] at hh ⊢
      rw [List.dropLast_concat]
      cases L with
      | nil => simp
      | cons y ys =>
        rw [List.cons_append, List.head?_cons] at hh
        rw [List.head?_cons]
        exact hh
  · rw [if_neg hl]
    exact hh

theorem stripTailHyphen_last {l : List Char}
    (h : List.Chain' (fun a b => ¬(a = '-' ∧ b = '-')) l) :
    (stripTailHyphen l).getLast? ≠ some '-' := by
  rw [stripTailHyphen]
  by_cases hl : l.getLast? = some '-'
  · rw [if_pos hl]
    rcases l.eq_nil_or_concat with rfl | ⟨L, b, rfl⟩
    · simp
    · rw [List.concat_eq_append] at h hl ⊢
      rw [List.dropLast_concat]
      rcases L.eq_nil_or_concat with rfl | ⟨M, a, rfl⟩
      · simp
      · rw [List.concat_eq_append] at h ⊢
        rw [List.getLast?_concat]
        intro hcontra
        have hb : b = '-' := by
          rw [List.getLast?_concat] at hl
          exact Option.some.inj hl
        have ha : a = '-' := Option.some.inj hcontra
        have hrel := (List.chain'_append.mp h).2.2
        exact hrel a (by rw [List.getLast?_concat]; rfl) b (by rw [List.head?_cons]; rfl)
          ⟨ha, hb⟩
  · rw [if_neg hl]
    exact hl

/-! ## C8: the slug shape claim -/

/-- C8 (amended): `slugify` lowercases the name, collapses every run of
non-alphanumeric characters to a single hyphen and strips a leading or
trailing hyphen, so its output consists of lowercase alphanumerics and
isolated hyphens, never starts or ends with a hyphen, and never contains
two adjacent hyphens; \"Standing Desk\" yields `standing-desk`. The
optional source, however, is prepended verbatim (`source + \"-\" + slug`)
without being slugified. -/
theorem slugify_slug_shape (name : String) :
    (∀ c ∈ (slugify name).data, slugKeep c = true ∨ c = '-') ∧
    (slugify name).data.head? ≠ some '-' ∧
    (slugify name).data.getLast? ≠ some '-' ∧
    List.Chain' (fun a b => ¬(a = '-' ∧ b = '-')) (slugify name).data ∧
    scheduleSlug none name = slugify name ∧
    scheduleSlug (some "src") name = "src" ++ "-" ++ slugify name ∧
    slugify "Standing Desk" = "standing-desk" := by
  have hsep := collapseRuns_sep (name.data.map asciiLower) false
  have hlead_ch := stripLeadHyphen_chain hsep.1
  refine ⟨?_, ?_, ?_, ?_, rfl, rfl, rfl⟩
  · intro c hc
    exact collapseRuns_chars _ _ c
      (stripLeadHyphen_subset _ c (stripTailHyphen_subset _ c hc))
  · exact stripTailHyphen_head (stripLeadHyphen_head hsep.1)
  · exact stripTailHyphen_last hlead_ch
  · exact stripTailHyphen_chain hlead_ch

/-- C8 counterexample: the claim says the resulting slug, including any
source prefix, is lowercase; with source `MyApp` the stored slug is
`MyApp-standing-desk`, which contains the uppercase letter `M` — the
source prefix is not normalized. -/
theorem slugify_slug_shape_counterexample :
    scheduleSlug (some "MyApp") "Standing Desk" = "MyApp-standing-desk" ∧
    'M' ∈ ("MyApp-standing-desk" : String).data ∧
    slugKeep 'M' = false := by
  refine ⟨rfl, ?_, rfl⟩
  decide

/-- C8 witness: the slug shape instantiated at the name `Standing Desk`. -/
theorem slugify_slug_shape_witness :
    (slugify "Standing Desk").data.head? ≠ some '-' ∧
    slugify "Standing Desk" = "standing-desk" :=
  ⟨(slugify_slug_shape "Standing Desk").2.1,
    (slugify_slug_shape "Standing Desk").2.2.2.2.2.2⟩

/-! ## Lemmas: trimming -/

theorem head?_dropWhile_false {α : Type} (p : α → Bool) :
    ∀ (l : List α) (a : α), (l.dropWhile p).head? = some a → p a = false := by
  intro l
  induction l with
  | nil =>
    intro a h
    simp at h
  | cons x xs ih =>
    intro a h
    rw [List.dropWhile_cons] at h
    by_cases hx : p x = true
    · rw [if_pos hx] at h
      exact ih a h
    · rw [if_neg hx] at h
      rw [List.head?_cons, Option.some.injEq] at h
      subst h
      simpa using hx

theorem dropWhile_self_of_head {α : Type} (p : α → Bool) (l : List α)
    (h : ∀ a, l.head? = some a → p a = false) : l.dropWhile p = l := by
  cases l with
  | nil => rfl
  | cons x xs =>
    have hx : ¬(p x = true) := by
      rw [h x rfl]
      simp
    rw [List.dropWhile_cons, if_neg hx]

theorem getLast?_dropWhile {α : Type} (p : α → Bool) :
    ∀ l : List α, l.dropWhile p ≠ [] → (l.dropWhile p).getLast? = l.getLast? := by
  intro l
  induction l with
  | nil =>
    intro h
    exact absurd rfl h
  | cons x xs ih =>
    intro hne
    rw [List.dropWhile_cons] at hne ⊢
    by_cases hx : p x = true
    · rw [if_pos hx] at hne ⊢
      rw [ih hne]
      have hxs : xs ≠ [] := by
        rintro rfl
        exact hne rfl
      cases xs with
      | nil => exact absurd rfl hxs
      | cons y ys => rw [List.getLast?_cons_cons]
    · rw [if_neg hx] at hne ⊢

theorem jsTrim_head {s : String} {c : Char} (h : (jsTrim s).data.head? = some c) :
    jsWhitespace c = false := by
  unfold jsTrim at h
  rw [List.head?_reverse] at h
  have hne : (s.data.dropWhile jsWhitespace).reverse.dropWhile jsWhitespace ≠ [] := by
    intro hnil
    rw [hnil] at h
    cases h
  rw [getLast?_dropWhile jsWhitespace _ hne, List.getLast?_reverse] at h
  exact head?_dropWhile_false jsWhitespace _ c h

theorem jsTrim_last {s : String} {c : Char} (h : (jsTrim s).data.getLast? = some c) :
    jsWhitespace c = false := by
  unfold jsTrim at h
  rw [List.getLast?_reverse] at h
  exact head?_dropWhile_false jsWhitespace _ c h

theorem jsTrim_idem (s : String) : jsTrim (jsTrim s) = jsTrim s := by
  have h1 : (jsTrim s).data.dropWhile jsWhitespace = (jsTrim s).data :=
    dropWhile_self_of_head jsWhitespace _ (fun a ha => jsTrim_head ha)
  have h2 : (jsTrim s).data.reverse.dropWhile jsWhitespace = (jsTrim s).data.reverse := by
    apply dropWhile_self_of_head
    intro a ha
    rw [List.head?_reverse] at ha
    exact jsTrim_last ha
  show (⟨((jsTrim s).data.dropWhile jsWhitespace).reverse.dropWhile
    jsWhitespace |>.reverse⟩ : String) = jsTrim s
  rw [h1, h2, List.reverse_reverse]

theorem trimToNone_some {o : Option String} {t : String} (h : trimToNone o = some t) :
    t ≠ "" ∧ jsTrim t = t := by
  cases o with
  | none => cases h
  | some s =>
    rw [trimToNone] at h
    by_cases he : jsTrim s = ""
    · rw [if_pos he] at h
      cases h
    · rw [if_neg he] at h
      obtain rfl := Option.some.inj h
      exact ⟨he, jsTrim_idem s⟩

/-! ## Lemmas: run spec validation -/

theorem validateRunSpec_ok_xor {u : String → Bool} {r : JobRunSpec}
    (h : validateRunSpec u r = .ok ()) :
    ¬((match r.prompt with
        | some s => jsTrim s != ""
        | none => false) = true ∧
      (match r.command with
        | some s => jsTrim s != ""
        | none => false) = true) := by
  unfold validateRunSpec at h
  rintro ⟨hp, hc⟩
  rw [hp, hc] at h
  simp at h

theorem validate_normalized_no_prompt {u : String → Bool} {r0 : JobRunSpec}
    (hval : validateRunSpec u (normalizeRunSpec r0) = .ok ())
    (hcmd : optStrTruthy (normalizeRunSpec r0).command = true) :
    (normalizeRunSpec r0).prompt = none := by
  have hcommand : (match (normalizeRunSpec r0).command with
      | some s => jsTrim s != ""
      | none => false) = true := by
    cases hc : (normalizeRunSpec r0).command with
    | none =>
      rw [hc] at hcmd
      cases hcmd
    | some c =>
      have htr : trimToNone r0.command = some c := hc
      obtain ⟨hne, hidem⟩ := trimToNone_some htr
      show (jsTrim c != "") = true
      rw [hidem]
      exact bne_iff_ne.mpr hne
  cases hp : (normalizeRunSpec r0).prompt with
  | none => rfl
  | some t =>
    exfalso
    have htr : trimToNone r0.prompt = some t := hp
    obtain ⟨hne, hidem⟩ := trimToNone_some htr
    apply validateRunSpec_ok_xor hval
    refine ⟨?_, hcommand⟩
    rw [hp]
    show (jsTrim t != "") = true
    rw [hidem]
    exact bne_iff_ne.mpr hne

/-! ## C2: the invocation builder claim -/

/-- C2 (amended): whenever the effective run spec validates,
`buildOpencodeArgs` produces exactly the §4.3 vector in the assembled
order — `run`, `--attach`, `--port`, `--command`, `--agent`, `--model`,
`--variant`, `--format`, then the bare `--share` flag, `--title`, the bare
`--continue` flag, `--session`, one `--file` per attachment in list order,
the `--` terminator and a single trailing positional argument; in command
mode the normalized prompt is absent and the trailing positional is the
arguments string (defaulting to empty). -/
theorem buildOpencodeArgs_order (u : String → Bool) (job : Job) (args : List String)
    (h : buildOpencodeArgs u job = .ok args) :
    ∃ run0, getJobRun job = .ok run0 ∧
      args = specArgOrderAmended (normalizeRunSpec run0) ∧
      (optStrTruthy (normalizeRunSpec run0).command = true →
        (normalizeRunSpec run0).prompt = none ∧
        args.getLast? = some ((normalizeRunSpec run0).arguments.getD "")) := by
  unfold buildOpencodeArgs at h
  obtain ⟨run0, hr0, h⟩ := exceptBind_ok.mp h
  dsimp only at h
  obtain ⟨hu, hval, h⟩ := exceptBind_ok.mp h
  have hargs : opencodeArgList (normalizeRunSpec run0) = args := by
    simpa using h
  have hval' : validateRunSpec u (normalizeRunSpec run0) = .ok () := by
    cases hu
    exact hval
  refine ⟨run0, hr0, ?_, ?_⟩
  · rw [← hargs]
    rfl
  · intro hcmd
    refine ⟨validate_normalized_no_prompt hval' hcmd, ?_⟩
    rw [← hargs]
    unfold opencodeArgList
    rw [if_pos hcmd]
    exact List.getLast?_concat _

/-- C2 counterexample: the specification lists `--title`/`--session` before
the bare `--share`/`--continue` flags, but the builder pushes `--share`
before `--title` (and `--continue` before `--session`): for a run spec with
both a title and the share flag the assembled vector differs from the
specified order. -/
theorem buildOpencodeArgs_order_counterexample :
    buildOpencodeArgs urlAny jobShareTitle =
      .ok ["run", "--share", "--title", "t", "--", "p"] ∧
    specArgOrderClaimed
      (normalizeRunSpec { prompt := some "p", title := some "t", share := some true }) =
      ["run", "--title", "t", "--share", "--", "p"] ∧
    (["run", "--share", "--title", "t", "--", "p"] : List String) ≠
      ["run", "--title", "t", "--share", "--", "p"] := by
  refine ⟨rfl, rfl, ?_⟩
  decide

/-- C2 witness: the order theorem instantiated at the command-mode job
`command="echo"`, `arguments="hi"`. -/
theorem buildOpencodeArgs_order_witness :
    buildOpencodeArgs urlAny jobEcho = .ok ["run", "--command", "echo", "--", "hi"] ∧
    (["run", "--command", "echo", "--", "hi"] : List String).getLast? = some "hi" := by
  have h : buildOpencodeArgs urlAny jobEcho =
      .ok ["run", "--command", "echo", "--", "hi"] := rfl
  obtain ⟨r0, hr0, hargs, hcmd⟩ := buildOpencodeArgs_order urlAny jobEcho _ h
  have hr0conc : getJobRun jobEcho =
      .ok ({ command := some "echo", arguments := some "hi" } : JobRunSpec) := rfl
  have hr0eq : r0 = { command := some "echo", arguments := some "hi" } := by
    have := hr0.symm.trans hr0conc
    simpa using this
  subst hr0eq
  exact ⟨h, (hcmd rfl).2⟩

/-! ## Lemmas: the job store -/

theorem storeLookup_insert_self (store : Store) (slug : String) (j : Job) :
    storeLookup (storeInsert store slug j) slug = some j := by
  unfold storeLookup storeInsert
  induction store with
  | nil =>
    simp [List.find?]
  | cons p ps ih =>
    rw [List.filter_cons]
    by_cases hp : p.1 = slug
    · rw [if_neg (by simp [hp])]
      exact ih
    · rw [if_pos (by simp [hp])]
      rw [List.cons_append, List.find?_cons]
      rw [decide_eq_false hp]
      exact ih

theorem exitCodeMsg_ne_empty (x : String) : ("Exit code " ++ x) ≠ "" := by
  intro h
  have hl : ("Exit code " ++ x).data.length = ("" : String).data.length := by rw [h]
  rw [String.data_append] at hl
  simp only [List.length_append] at hl
  have h10 : ("Exit code " : String).data.length = 10 := rfl
  have h0 : ("" : String).data.length = 0 := rfl
  rw [h10, h0] at hl
  omega

/-! ## C10: updateJobRecord on a missing record -/

/-- C10: for a slug with no persisted record, `updateJobRecord` returns
`null` and leaves the store untouched, so the completion and error handlers
of a manual run do not recreate a job record that was deleted while the run
was in flight. -/
theorem updateJobRecord_missing (u : String → Bool) (store : Store) (slug : String)
    (updates : RunUpdates) (code : Option Int) (msg now : String)
    (h : storeLookup store slug = none) :
    updateJobRecord u store slug updates now = .ok (none, store) ∧
    (runJobNowOnClose u store slug code now).2 = .ok (none, store) ∧
    (runJobNowOnError u store slug msg now).2 = .ok (none, store) := by
  have key : ∀ ups : RunUpdates, updateJobRecord u store slug ups now = .ok (none, store) := by
    intro ups
    unfold updateJobRecord
    rw [h]
  exact ⟨key updates, key (closeUpdates code), key (errorUpdates msg)⟩

/-- C10 witness: the missing-record behaviour at a concrete empty store. -/
theorem updateJobRecord_missing_witness :
    updateJobRecord urlAny [] "gone" (closeUpdates (some 0)) "T1" = .ok (none, []) ∧
    (runJobNowOnClose urlAny [] "gone" (some 0) "T1").2 = .ok (none, []) :=
  ⟨(updateJobRecord_missing urlAny [] "gone" (closeUpdates (some 0)) (some 0) "m" "T1" rfl).1,
    (updateJobRecord_missing urlAny [] "gone" (closeUpdates (some 0)) (some 0) "m" "T1" rfl).2.1⟩

/-! ## C3: the close handler of a manual run -/

/-- C3: when the spawned child of a manual run closes, the handler writes a
completion marker naming the exit code, ends the log stream, and updates
the record: `lastRunStatus` becomes `success` exactly when the exit code is
0; any other exit code, including a missing one, yields `failed` together
with a non-empty `lastRunError` naming the exit code (or `unknown`), and
the saved record carries the same status fields. -/
theorem runJobNow_close_status (u : String → Bool) (store : Store) (slug : String)
    (code : Option Int) (now : String) (job sj : Job)
    (hload : storeLookup store slug = some job)
    (hsan : sanitizeJob u (applyRunUpdates job (closeUpdates code) now) = .ok sj) :
    (runJobNowOnClose u store slug code now).1 =
      [.write (closeCompletionMarker code now), .close] ∧
    (runJobNowOnClose u store slug code now).2 =
      .ok (some (applyRunUpdates job (closeUpdates code) now),
        storeInsert store (applyRunUpdates job (closeUpdates code) now).slug sj) ∧
    ((applyRunUpdates job (closeUpdates code) now).lastRunStatus = some "success" ↔
      code = some 0) ∧
    (applyRunUpdates job (closeUpdates code) now).lastRunExitCode = code ∧
    (code = some 0 → (applyRunUpdates job (closeUpdates code) now).lastRunError = none) ∧
    (code ≠ some 0 →
      (applyRunUpdates job (closeUpdates code) now).lastRunError =
        some ("Exit code " ++ exitCodeLabel code) ∧
      ("Exit code " ++ exitCodeLabel code) ≠ "") := by
  have hst : (applyRunUpdates job (closeUpdates code) now).lastRunStatus =
      some (if code = some 0 then "success" else "failed") := rfl
  have herr : (applyRunUpdates job (closeUpdates code) now).lastRunError =
      (if code = some 0 then none
       else some ("Exit code " ++ exitCodeLabel code)) := rfl
  refine ⟨rfl, ?_, ?_, rfl, ?_, ?_⟩
  · show updateJobRecord u store slug (closeUpdates code) now = _
    unfold updateJobRecord
    rw [hload]
    dsimp only
    unfold saveJob
    rw [hsan]
    rfl
  · rw [hst]
    by_cases hz : code = some 0
    · rw [if_pos hz]
      exact ⟨fun _ => hz, fun _ => rfl⟩
    · rw [if_neg hz]
      constructor
      · intro hcontra
        exact absurd (Option.some.inj hcontra) (by decide)
      · intro hcontra
        exact absurd hcontra hz
  · intro hz
    rw [herr, if_pos hz]
  · intro hnz
    rw [herr, if_neg hnz]
    exact ⟨rfl, exitCodeMsg_ne_empty _⟩

/-- C3 witness: exit code 1 on a stored prompt job yields status `failed`
with error `Exit code 1`; the handler result saves the updated record. -/
theorem runJobNow_close_status_witness :
    (applyRunUpdates jobPromptFix (closeUpdates (some 1)) "T1").lastRunExitCode = some 1 ∧
    (applyRunUpdates jobPromptFix (closeUpdates (some 1)) "T1").lastRunError =
      some "Exit code 1" ∧
    ¬((applyRunUpdates jobPromptFix (closeUpdates (some 1)) "T1").lastRunStatus =
      some "success") := by
  have h := runJobNow_close_status urlAny [("fix", jobPromptFix)] "fix" (some 1) "T1"
    jobPromptFix (applyRunUpdates jobPromptFix (closeUpdates (some 1)) "T1") rfl rfl
  refine ⟨h.2.2.2.1, ?_, ?_⟩
  · exact (h.2.2.2.2.2 (by decide)).1
  · intro hcontra
    exact absurd (h.2.2.1.mp hcontra) (by decide)

/-! ## C9: the update_job rollback -/

/-- C9: if the save-and-reinstall of the updated record fails (either the
save throws or the native install of the updated unit fails), the tail of
`update_job.execute` restores the prior record to the store, attempts a
best-effort reinstall of the prior configuration, and reports the failure
to the caller. -/
theorem update_job_rollback (u : String → Bool) (store : Store)
    (priorJob updatedJob : Job) (iu : Except String Unit)
    (hprior : sanitizeJob u priorJob = .ok priorJob)
    (hfail : (∃ e, saveJob u store updatedJob = .error e) ∨ (∃ e, iu = .error e)) :
    (∃ msg, (updateJobFinish u store priorJob updatedJob iu).1 = .errorReported msg) ∧
    storeLookup (updateJobFinish u store priorJob updatedJob iu).2.1 priorJob.slug =
      some priorJob ∧
    SchedEffect.install priorJob.slug ∈ (updateJobFinish u store priorJob updatedJob iu).2.2 := by
  cases hs : saveJob u store updatedJob with
  | ok s1 =>
    have hiu : ∃ e, iu = .error e := by
      rcases hfail with ⟨e, he⟩ | he
      · rw [hs] at he
        cases he
      · exact he
    obtain ⟨e, he⟩ := hiu
    have hsave : saveJob u s1 priorJob = .ok (storeInsert s1 priorJob.slug priorJob) := by
      unfold saveJob
      rw [hprior]
      rfl
    have hkey : updateJobFinish u store priorJob updatedJob iu =
        (.errorReported ("Failed to update job: " ++ e),
          storeInsert s1 priorJob.slug priorJob,
          [.save updatedJob.slug, .install updatedJob.slug,
            .save priorJob.slug, .install priorJob.slug]) := by
      unfold updateJobFinish
      rw [hs]
      dsimp only
      rw [he]
      dsimp only
      rw [hsave]
    rw [hkey]
    refine ⟨⟨_, rfl⟩, storeLookup_insert_self _ _ _, ?_⟩
    simp
  | error e =>
    have hsave : saveJob u store priorJob = .ok (storeInsert store priorJob.slug priorJob) := by
      unfold saveJob
      rw [hprior]
      rfl
    have hkey : updateJobFinish u store priorJob updatedJob iu =
        (.errorReported ("Failed to update job: " ++ e),
          storeInsert store priorJob.slug priorJob,
          [.save priorJob.slug, .install priorJob.slug]) := by
      unfold updateJobFinish
      rw [hs]
      dsimp only
      rw [hsave]
    rw [hkey]
    refine ⟨⟨_, rfl⟩, storeLookup_insert_self _ _ _, ?_⟩
    simp

/-- C9 witness: a failing install of the updated unit on a concrete store
rolls back to the prior record and reinstalls it. -/
theorem update_job_rollback_witness :
    (∃ msg, (updateJobFinish urlAny [("fix", jobPromptFix)] jobPromptFix
      { jobPromptFix with schedule := "0 10 * * *" } (.error "boom")).1 =
        .errorReported msg) ∧
    storeLookup (updateJobFinish urlAny [("fix", jobPromptFix)] jobPromptFix
      { jobPromptFix with schedule := "0 10 * * *" } (.error "boom")).2.1 "fix" =
        some jobPromptFix :=
  ⟨(update_job_rollback urlAny [("fix", jobPromptFix)] jobPromptFix
      { jobPromptFix with schedule := "0 10 * * *" } (.error "boom") rfl
      (Or.inr ⟨"boom", rfl⟩)).1,
    (update_job_rollback urlAny [("fix", jobPromptFix)] jobPromptFix
      { jobPromptFix with schedule := "0 10 * * *" } (.error "boom") rfl
      (Or.inr ⟨"boom", rfl⟩)).2.1⟩

/-! ## C4: the schedule_job validation gate -/

/-- C4 (amended): every validation failure of `schedule_job` — an invalid
`runFormat`, a run spec failing strict validation (including the
prompt/command exclusive-or), an invalid attach URL, or an invalid cron
expression (wrong field count, out-of-range value, non-positive step) — is
rejected before any job file is written and before any service-manager
command is invoked: the result is an error, the store is unchanged, and no
persistence or install effect is performed. (A non-positive port is not in
this list: normalization silently clears it before validation.) -/
theorem schedule_job_validation_gate (u : String → Bool) (install : Except String Unit)
    (cwd now : String) (store : Store) (args : ScheduleArgs)
    (hfail :
      (∃ e, parseRunFormatInput args.runFormat = .error e) ∨
      (∃ e rf, parseRunFormatInput args.runFormat = .ok rf ∧
        validateRunSpec u (normalizeRunSpec (runSpecOfArgs args rf)) = .error e) ∨
      (∃ e, normalizeAttachUrl u args.attachUrl = .error e) ∨
      (∃ e, validateCronExpression args.schedule = .error e)) :
    (∃ msg, (scheduleJobExecute u install cwd now store args).1 = .error msg) ∧
    (scheduleJobExecute u install cwd now store args).2.1 = store ∧
    (scheduleJobExecute u install cwd now store args).2.2 = [] := by
  unfold scheduleJobExecute
  by_cases hex : (storeLookup store (scheduleSlug args.source args.name)).isSome = true
  · rw [if_pos hex]
    exact ⟨⟨_, rfl⟩, rfl, rfl⟩
  · rw [if_neg hex]
    cases hrf : parseRunFormatInput args.runFormat with
    | error e => exact ⟨⟨_, rfl⟩, rfl, rfl⟩
    | ok rf =>
      dsimp only
      cases hvs : validateRunSpec u (normalizeRunSpec (runSpecOfArgs args rf)) with
      | error e => exact ⟨⟨_, rfl⟩, rfl, rfl⟩
      | ok uv =>
        dsimp only
        cases hau : normalizeAttachUrl u args.attachUrl with
        | error e => exact ⟨⟨_, rfl⟩, rfl, rfl⟩
        | ok attachUrl =>
          dsimp only
          cases hcron : validateCronExpression args.schedule with
          | error e => exact ⟨⟨_, rfl⟩, rfl, rfl⟩
          | ok cv =>
            exfalso
            rcases hfail with ⟨e, he⟩ | ⟨e, rf2, hrf2, hv2⟩ | ⟨e, he⟩ | ⟨e, he⟩
            · rw [hrf] at he
              cases he
            · rw [hrf] at hrf2
              have hrfeq : rf = rf2 := by simpa using hrf2
              rw [← hrfeq] at hv2
              rw [hvs] at hv2
              cases hv2
            · rw [hau] at he
              cases he
            · rw [hcron] at he
              cases he

/-- C4 counterexample: the claim counts an invalid (non-positive) port as a
rejected validation failure, but `normalizeRunSpec` silently drops it
before validation runs: scheduling with `port = 0` succeeds and both the
job-file write and the install are performed. -/
theorem schedule_job_validation_gate_counterexample :
    (∃ j, (scheduleJobExecute urlAny (.ok ()) "/cwd" "NOW" [] argsPortZero).1 = .ok j) ∧
    (scheduleJobExecute urlAny (.ok ()) "/cwd" "NOW" [] argsPortZero).2.2 =
      [SchedEffect.save "x", SchedEffect.install "x"] :=
  ⟨⟨_, rfl⟩, rfl⟩

/-- C4 witness: the gate instantiated at the three-field cron expression
`* * *` on an empty store. -/
theorem schedule_job_validation_gate_witness :
    (∃ msg, (scheduleJobExecute urlAny (.ok ()) "/cwd" "NOW" [] argsBadCron).1 =
      .error msg) ∧
    (scheduleJobExecute urlAny (.ok ()) "/cwd" "NOW" [] argsBadCron).2.1 = [] ∧
    (scheduleJobExecute urlAny (.ok ()) "/cwd" "NOW" [] argsBadCron).2.2 = [] :=
  schedule_job_validation_gate urlAny (.ok ()) "/cwd" "NOW" [] argsBadCron
    (Or.inr (Or.inr (Or.inr ⟨"Invalid cron: * * *", rfl⟩)))

/-! ## Lemmas: sanitizeJob shape -/

theorem normalizeRunSpec_runFormat (r : JobRunSpec) :
    (normalizeRunSpec r).runFormat = none ∨
    (normalizeRunSpec r).runFormat = some "default" ∨
    (normalizeRunSpec r).runFormat = some "json" := by
  by_cases h1 : r.runFormat = some "json"
  · refine Or.inr (Or.inr ?_)
    show (if r.runFormat = some "json" then some "json"
      else if r.runFormat = some "default" then some "default" else none) = some "json"
    rw [if_pos h1]
  · by_cases h2 : r.runFormat = some "default"
    · refine Or.inr (Or.inl ?_)
      show (if r.runFormat = some "json" then some "json"
        else if r.runFormat = some "default" then some "default" else none) = some "default"
      rw [if_neg h1, if_pos h2]
    · refine Or.inl ?_
      show (if r.runFormat = some "json" then some "json"
        else if r.runFormat = some "default" then some "default" else none) = none
      rw [if_neg h1, if_neg h2]

theorem sanitizeLegacyFields_shape {u : String → Bool} {job1 j' : Job}
    (h : sanitizeLegacyFields u job1 = .ok j') :
    j'.run = job1.run ∧
    j'.slug = job1.slug ∧ j'.name = job1.name ∧ j'.schedule = job1.schedule ∧
    j'.source = job1.source ∧ j'.workdir = job1.workdir ∧
    j'.createdAt = job1.createdAt ∧ j'.updatedAt = job1.updatedAt ∧
    j'.lastRunAt = job1.lastRunAt ∧ j'.lastRunExitCode = job1.lastRunExitCode ∧
    j'.lastRunError = job1.lastRunError ∧ j'.lastRunSource = job1.lastRunSource ∧
    j'.lastRunStatus = job1.lastRunStatus := by
  unfold sanitizeLegacyFields at h
  cases ha : job1.attachUrl with
  | none =>
    rw [ha] at h
    dsimp only at h
    rw [Except.ok.injEq] at h
    subst h
    exact ⟨rfl, rfl, rfl, rfl, rfl, rfl, rfl, rfl, rfl, rfl, rfl, rfl, rfl⟩
  | some a =>
    rw [ha] at h
    dsimp only at h
    cases hn : normalizeAttachUrl u (some a) with
    | error e =>
      rw [hn] at h
      cases h
    | ok au =>
      rw [hn] at h
      dsimp only at h
      rw [Except.ok.injEq] at h
      subst h
      exact ⟨rfl, rfl, rfl, rfl, rfl, rfl, rfl, rfl, rfl, rfl, rfl, rfl, rfl⟩

theorem sanitizeJob_shape {u : String → Bool} {j j' : Job} (h : sanitizeJob u j = .ok j') :
    (j'.slug = j.slug ∧ j'.name = j.name ∧ j'.schedule = j.schedule ∧
      j'.source = j.source ∧ j'.workdir = j.workdir ∧ j'.createdAt = j.createdAt ∧
      j'.updatedAt = j.updatedAt ∧ j'.lastRunAt = j.lastRunAt ∧
      j'.lastRunExitCode = j.lastRunExitCode ∧ j'.lastRunError = j.lastRunError ∧
      j'.lastRunSource = j.lastRunSource ∧ j'.lastRunStatus = j.lastRunStatus) ∧
    ((j.run = none ∧ j'.run = none) ∨
      (∃ r0, j.run = some r0 ∧ j'.run = some (normalizeRunSpec r0))) := by
  unfold sanitizeJob at h
  cases hr : j.run with
  | none =>
    rw [hr] at h
    dsimp only at h
    obtain ⟨hrun, hrest⟩ := sanitizeLegacyFields_shape h
    refine ⟨hrest, Or.inl ⟨rfl, ?_⟩⟩
    rw [hrun, hr]
  | some r0 =>
    rw [hr] at h
    dsimp only at h
    cases hv : validateRunSpec u (normalizeRunSpec r0) with
    | error e =>
      rw [hv] at h
      cases h
    | ok uv =>
      rw [hv] at h
      dsimp only at h
      obtain ⟨hrun, hs, hn, hsc, hso, hw, hc, hu2, hla, hec, her, hls, hst⟩ :=
        sanitizeLegacyFields_shape h
      exact ⟨⟨hs, hn, hsc, hso, hw, hc, hu2, hla, hec, her, hls, hst⟩,
        Or.inr ⟨r0, rfl, hrun⟩⟩

theorem decodeJob_lastRunStatus (fs : List (String × JVal)) (slug name schedule now : String) :
    (decodeJob fs slug name schedule now).lastRunStatus =
      match jlookup fs "lastRunStatus" with
      | some (.jstr s) =>
        if s = "running" ∨ s = "success" ∨ s = "failed" then some s else none
      | _ => none := rfl

theorem decodeJob_lastRunSource (fs : List (String × JVal)) (slug name schedule now : String) :
    (decodeJob fs slug name schedule now).lastRunSource =
      match jlookup fs "lastRunSource" with
      | some (.jstr s) =>
        if s = "manual" ∨ s = "scheduled" then some s else none
      | _ => none := rfl

/-! ## C6: the tolerant decode -/

/-- C6 (amended): `normalizeJob` returns `null` for any raw value that is
not a record with string `slug`/`name`/`schedule`; otherwise it builds a
job with safe defaults — a missing `createdAt` backfilled with the current
time, enum-like fields (`lastRunStatus`, `lastRunSource`, the nested
`runFormat`) dropped to `undefined` unless they hold a known value — and
then applies the strict `sanitizeJob`, whose exception (possible for a
record whose run spec fails validation) is caught by `loadJob`, which
yields `null` instead of throwing. -/
theorem normalizeJob_tolerant (u : String → Bool) (raw : JVal) (now : String) (j : Job)
    (h : normalizeJob u raw now = .ok (some j)) :
    (j.lastRunStatus = none ∨ j.lastRunStatus = some "running" ∨
      j.lastRunStatus = some "success" ∨ j.lastRunStatus = some "failed") ∧
    (j.lastRunSource = none ∨ j.lastRunSource = some "manual" ∨
      j.lastRunSource = some "scheduled") ∧
    (∀ r, j.run = some r →
      r.runFormat = none ∨ r.runFormat = some "default" ∨ r.runFormat = some "json") ∧
    (∀ fs, raw = .jobj fs → getStrField fs "createdAt" = none → j.createdAt = now) ∧
    (∀ fs s, raw = .jobj fs → getStrField fs "createdAt" = some s → j.createdAt = s) ∧
    loadJobFromRaw u raw now = some j := by
  cases raw with
  | jnull => simp [normalizeJob] at h
  | jbool b => simp [normalizeJob] at h
  | jnum n => simp [normalizeJob] at h
  | jstr s => simp [normalizeJob] at h
  | jarr xs => simp [normalizeJob] at h
  | jobj fs =>
    unfold normalizeJob at h
    dsimp only at h
    cases hslug : getStrField fs "slug" with
    | none => rw [hslug] at h; simp at h
    | some slugv =>
      cases hname : getStrField fs "name" with
      | none => rw [hslug, hname] at h; simp at h
      | some namev =>
        cases hsched : getStrField fs "schedule" with
        | none => rw [hslug, hname, hsched] at h; simp at h
        | some schedv =>
          rw [hslug, hname, hsched] at h
          dsimp only at h
          cases hsj : sanitizeJob u (decodeJob fs slugv namev schedv now) with
          | error e =>
            rw [hsj] at h
            simp [Except.map] at h
          | ok sj =>
            rw [hsj] at h
            have hsjj : sj = j := by simpa [Except.map] using h
            subst hsjj
            obtain ⟨hfields, hrun⟩ := sanitizeJob_shape hsj
            obtain ⟨_, _, _, _, _, hcreated, _, _, _, _, hsource, hstatus⟩ := hfields
            refine ⟨?_, ?_, ?_, ?_, ?_, ?_⟩
            · rw [hstatus, decodeJob_lastRunStatus]
              cases hls : jlookup fs "lastRunStatus" with
              | none => exact Or.inl rfl
              | some v =>
                cases v with
                | jstr s =>
                  by_cases hcond : s = "running" ∨ s = "success" ∨ s = "failed"
                  · dsimp only
                    rw [if_pos hcond]
                    rcases hcond with rfl | rfl | rfl
                    · exact Or.inr (Or.inl rfl)
                    · exact Or.inr (Or.inr (Or.inl rfl))
                    · exact Or.inr (Or.inr (Or.inr rfl))
                  · dsimp only
                    rw [if_neg hcond]
                    exact Or.inl rfl
                | jnull => exact Or.inl rfl
                | jbool b => exact Or.inl rfl
                | jnum n => exact Or.inl rfl
                | jarr xs => exact Or.inl rfl
                | jobj fs2 => exact Or.inl rfl
            · rw [hsource, decodeJob_lastRunSource]
              cases hls : jlookup fs "lastRunSource" with
              | none => exact Or.inl rfl
              | some v =>
                cases v with
                | jstr s =>
                  by_cases hcond : s = "manual" ∨ s = "scheduled"
                  · dsimp only
                    rw [if_pos hcond]
                    rcases hcond with rfl | rfl
                    · exact Or.inr (Or.inl rfl)
                    · exact Or.inr (Or.inr rfl)
                  · dsimp only
                    rw [if_neg hcond]
                    exact Or.inl rfl
                | jnull => exact Or.inl rfl
                | jbool b => exact Or.inl rfl
                | jnum n => exact Or.inl rfl
                | jarr xs => exact Or.inl rfl
                | jobj fs2 => exact Or.inl rfl
            · intro r hr
              rcases hrun with ⟨_, hnone⟩ | ⟨r0, _, hsome⟩
              · rw [hnone] at hr
                cases hr
              · rw [hsome] at hr
                obtain rfl := Option.some.inj hr
                exact normalizeRunSpec_runFormat r0
            · intro fs2 heq hnonecr
              obtain rfl : fs = fs2 := by
                injection heq
              rw [hcreated]
              show (getStrField fs "createdAt").getD now = now
              rw [hnonecr]
              rfl
            · intro fs2 s heq hsome
              obtain rfl : fs = fs2 := by
                injection heq
              rw [hcreated]
              show (getStrField fs "createdAt").getD now = s
              rw [hsome]
              rfl
            · unfold loadJobFromRaw
              unfold normalizeJob
              dsimp only
              rw [hslug, hname, hsched]
              dsimp only
              rw [hsj]
              rfl

/-- C6 counterexample: `normalizeJob` can throw. A structurally valid
record whose nested `run` value is the empty object reaches the strict
`sanitizeJob`, whose run-spec validation throws the prompt/command error;
only `loadJob` (which catches the exception) turns this into `null`. -/
theorem normalizeJob_tolerant_counterexample :
    normalizeJob urlAny rawRunEmpty "NOW" =
      .error "Job must have either run.prompt or run.command" ∧
    loadJobFromRaw urlAny rawRunEmpty "NOW" = none :=
  ⟨rfl, rfl⟩

/-- C6 witness: the corrupted fixture record (unknown `lastRunStatus`
string, non-string `lastRunSource`, missing `createdAt`) decodes without
failure to a job with the unknown fields dropped and `createdAt`
backfilled. -/
theorem normalizeJob_tolerant_witness :
    loadJobFromRaw urlAny rawCorrupt "NOW" = some jobCorrupt ∧
    jobCorrupt.lastRunStatus = none := by
  have h : normalizeJob urlAny rawCorrupt "NOW" = .ok (some jobCorrupt) := rfl
  have hc := normalizeJob_tolerant urlAny rawCorrupt "NOW" jobCorrupt h
  exact ⟨hc.2.2.2.2.2, rfl⟩

end Scheduler
